import Mathlib

/-!
# Coffee-shop order-queue engine: shallow embedding

This file embeds the order-queue engine of `queue_manager.py` (class
`QueueManager` together with `Order`, `Priority`, `OrderStatus`) as a pure
state machine, plus the input-validation check of the transport layer
(`app.py`, `create_order`).

Modelling conventions:
* Python `Order` objects are mutable and aliased between `self.queue`, the
  per-priority deques, `preparing_orders` and `completed_orders`.  We model
  this with a single store `orders : Nat → Option Order` keyed by order id,
  while every queue/map/history holds ids.  Mutating an order in place is
  updating the store at its id.
* `uuid.uuid4()` produces a fresh unique id; we model id generation with a
  counter `nextId` (ids are issued in submission order, so an order's id also
  records its arrival rank).
* Wall-clock time appears only in `complete_order`, where the actual wait
  `(now - created_at)` in minutes is folded into the rolling average.  The
  elapsed wait is an environment input, so `completeOrder` takes it as an
  explicit rational parameter; `created_at` itself is not needed by any
  operation and is omitted from the record.
* Python floats are modelled as exact rationals; `round(x, 1)` is modelled
  as exact round-half-to-even at one decimal place.
-/

namespace CoffeeQueue

/-- `OrderStatus` enum of `queue_manager.py` (READY exists but is never
assigned by the engine). -/
inductive OrderStatus where
  | QUEUED
  | PREPARING
  | READY
  | COMPLETED
  | CANCELLED
deriving DecidableEq, Repr

/-- `Priority` enum of `queue_manager.py`. -/
inductive Priority where
  | REGULAR
  | VIP
  | MOBILE_ORDER
deriving DecidableEq, Repr

/-- `Order._calculate_wait_time`: 5 minutes base plus 2 minutes per item. -/
def calculateWaitTime (items : List String) : Nat :=
  5 + items.length * 2

/-- The `Order` entity (`Order.__init__`).  `created_at` is omitted (see
module docstring); all other fields are kept. -/
structure Order where
  id : Nat
  customer_name : String
  items : List String
  priority : Priority
  status : OrderStatus
  estimated_wait_time : Nat
  position_in_queue : Option Nat
deriving DecidableEq, Repr

/-- Engine state: the fields of `QueueManager.__init__`, with the id-keyed
order store `orders` and the fresh-id counter `nextId` added per the
modelling conventions.  `stats` is inlined as four fields. -/
structure QM where
  queue : List Nat
  pqVIP : List Nat
  pqMobile : List Nat
  pqRegular : List Nat
  preparing : List Nat
  completed : List Nat
  total_orders : Nat
  completed_today : Nat
  average_wait_time : ℚ
  peak_queue_length : Nat
  orders : Nat → Option Order
  nextId : Nat

/-- `QueueManager.__init__`: everything empty, stats zero. -/
def initQM : QM where
  queue := []
  pqVIP := []
  pqMobile := []
  pqRegular := []
  preparing := []
  completed := []
  total_orders := 0
  completed_today := 0
  average_wait_time := 0
  peak_queue_length := 0
  orders := fun _ => none
  nextId := 0

/-- The per-priority pending deque for a priority class
(`self.priority_queues[priority]`). -/
def QM.pq (s : QM) : Priority → List Nat
  | .VIP => s.pqVIP
  | .MOBILE_ORDER => s.pqMobile
  | .REGULAR => s.pqRegular

/-- Replace the per-priority deque for one priority class. -/
def QM.setPq (s : QM) : Priority → List Nat → QM
  | .VIP, l => { s with pqVIP := l }
  | .MOBILE_ORDER, l => { s with pqMobile := l }
  | .REGULAR, l => { s with pqRegular := l }

/-- Update the stored order at one id. -/
def updStore (m : Nat → Option Order) (i : Nat) (f : Order → Order) :
    Nat → Option Order :=
  fun j => if j = i then (m i).map f else m j

/-- In-place position assignment, as `_rebuild_main_queue` performs it. -/
def setPos (p : Nat) (o : Order) : Order :=
  { o with position_in_queue := some p }

/-- The `for position, order in enumerate(self.queue)` loop of
`_rebuild_main_queue`: walk the queue with a running 1-based position and
set each enumerated order's `position_in_queue` in place. -/
def assignPositions (q : List Nat) (pos : Nat) (m : Nat → Option Order) :
    Nat → Option Order :=
  match q with
  | [] => m
  | i :: rest => assignPositions rest (pos + 1) (updStore m i (setPos pos))

/-- `QueueManager._rebuild_main_queue`: clear the main queue, extend it with
the VIP, MOBILE_ORDER, REGULAR deques in that order, and reassign
`position_in_queue` for every order now in the main queue. -/
def rebuildMainQueue (s : QM) : QM :=
  let q := s.pqVIP ++ s.pqMobile ++ s.pqRegular
  { s with queue := q, orders := assignPositions q 1 s.orders }

/-- `Order.__init__` as called from `add_order`, with the fresh unique id
drawn from the engine's counter (see module docstring). -/
def newOrderOf (s : QM) (customer_name : String) (items : List String)
    (priority : Priority) : Order :=
  { id := s.nextId
    customer_name := customer_name
    items := items
    priority := priority
    status := .QUEUED
    estimated_wait_time := calculateWaitTime items
    position_in_queue := none }

/-- `QueueManager.add_order`: construct the order, append it to its priority
deque, rebuild the main queue, bump `total_orders` and the peak length, and
return the (now position-bearing) order. -/
def QM.addOrder (s : QM) (customer_name : String) (items : List String)
    (priority : Priority) : Order × QM :=
  let o : Order := newOrderOf s customer_name items priority
  let s1 : QM := { s with orders := fun j => if j = o.id then some o else s.orders j
                          nextId := s.nextId + 1 }
  let s2 := s1.setPq priority (s1.pq priority ++ [o.id])
  let s3 := rebuildMainQueue s2
  let s4 := { s3 with
    total_orders := s3.total_orders + 1
    peak_queue_length :=
      if s3.queue.length > s3.peak_queue_length then s3.queue.length
      else s3.peak_queue_length }
  ((s4.orders o.id).getD o, s4)

/-- The `for priority_queue in self.priority_queues.values()` removal loop of
`get_next_order` and `cancel_order`: try VIP, then MOBILE_ORDER, then
REGULAR (dict insertion order); `deque.remove` deletes the first occurrence
and the loop breaks after the first deque that does not raise. -/
def removeFromPriorityQueues (s : QM) (i : Nat) : QM :=
  if i ∈ s.pqVIP then { s with pqVIP := s.pqVIP.erase i }
  else if i ∈ s.pqMobile then { s with pqMobile := s.pqMobile.erase i }
  else if i ∈ s.pqRegular then { s with pqRegular := s.pqRegular.erase i }
  else s

/-- In-place status mutation (`order.status = ...`). -/
def setStatus (st : OrderStatus) (o : Order) : Order :=
  { o with status := st }

/-- `QueueManager.get_next_order`: pop the head of the main queue, remove it
from whichever priority deque holds it, mark it PREPARING, file it in the
preparing map, rebuild positions, and return it; `None` on an empty queue. -/
def QM.getNextOrder (s : QM) : Option Order × QM :=
  match s.queue with
  | [] => (none, s)
  | i :: rest =>
      let s1 := { s with queue := rest }
      let s2 := removeFromPriorityQueues s1 i
      let s3 := { s2 with
        orders := updStore s2.orders i (setStatus .PREPARING)
        preparing := s2.preparing ++ [i] }
      let s4 := rebuildMainQueue s3
      (s4.orders i, s4)

/-- Exact model of Python `round` to an integer: round half to even. -/
def pyRoundInt (x : ℚ) : ℤ :=
  let f : ℤ := ⌊x⌋
  let r : ℚ := x - f
  if r < 1 / 2 then f
  else if r > 1 / 2 then f + 1
  else if f % 2 = 0 then f else f + 1

/-- Exact model of Python `round(x, 1)`: scale by 10, round half to even,
scale back. -/
def pyRound1 (x : ℚ) : ℚ :=
  (pyRoundInt (x * 10) : ℚ) / 10

/-- `QueueManager._update_average_wait_time`, called with `completed_today`
already incremented to `n`: the first completion stores the sample as-is;
later completions apply the cumulative-mean step and round the result to one
decimal place. -/
def updateAverageWaitTime (n : Nat) (avg : ℚ) (sample : ℚ) : ℚ :=
  if n = 1 then sample
  else pyRound1 ((avg * ((n : ℚ) - 1) + sample) / (n : ℚ))

/-- `QueueManager.complete_order`: false/no-op unless the id is a key of the
preparing map; otherwise pop it, mark it COMPLETED, append it to the history,
bump `completed_today` and fold the actual wait (an environment input, see
module docstring) into the rolling average. -/
def QM.completeOrder (s : QM) (order_id : Nat) (actual_wait : ℚ) : Bool × QM :=
  if order_id ∈ s.preparing then
    let s1 := { s with
      preparing := s.preparing.erase order_id
      orders := updStore s.orders order_id (setStatus .COMPLETED)
      completed := s.completed ++ [order_id] }
    let n := s1.completed_today + 1
    let s2 := { s1 with
      completed_today := n
      average_wait_time := updateAverageWaitTime n s1.average_wait_time actual_wait }
    (true, s2)
  else (false, s)

/-- `QueueManager.cancel_order`: scan the main queue for the id first; if
found, mark CANCELLED, delete it from the main queue and its priority deque
and rebuild; otherwise try the preparing map; otherwise false. -/
def QM.cancelOrder (s : QM) (order_id : Nat) : Bool × QM :=
  if order_id ∈ s.queue then
    let s1 := { s with
      orders := updStore s.orders order_id (setStatus .CANCELLED)
      queue := s.queue.erase order_id }
    let s2 := removeFromPriorityQueues s1 order_id
    (true, rebuildMainQueue s2)
  else if order_id ∈ s.preparing then
    (true, { s with
      preparing := s.preparing.erase order_id
      orders := updStore s.orders order_id (setStatus .CANCELLED) })
  else (false, s)

/-- Status of the stored order at an id (CANCELLED as the out-of-store
default; every id the theorems touch is in the store). -/
def QM.statusAt (s : QM) (i : Nat) : OrderStatus :=
  match s.orders i with
  | some o => o.status
  | none => .CANCELLED

/-- `position_in_queue` of the stored order at an id. -/
def QM.posAt (s : QM) (i : Nat) : Option Nat :=
  match s.orders i with
  | some o => o.position_in_queue
  | none => none

/-- `estimated_wait_time` of the stored order at an id (0 as the
out-of-store default, never hit on reachable states). -/
def QM.estAt (s : QM) (i : Nat) : Nat :=
  match s.orders i with
  | some o => o.estimated_wait_time
  | none => 0

/-- `QueueManager._calculate_estimated_wait_time`: 5 on an empty queue, else
`max(5, total_wait // min(5, len(queue)))` where `total_wait` sums the
estimated waits of the first five queued orders. -/
def QM.calculateEstimatedWaitTime (s : QM) : Nat :=
  if s.queue = [] then 5
  else
    let total_wait := ((s.queue.take 5).map s.estAt).sum
    max 5 (total_wait / min 5 s.queue.length)

/-- The fields of the `QueueManager.get_queue_status` dict (orders resolved
through the store; `queue_orders` is capped at the first ten). -/
structure QueueStatus where
  queue_length : Nat
  preparing_count : Nat
  estimated_wait_time : Nat
  queue_orders : List Order
  preparing_orders : List Order
deriving Repr

/-- `QueueManager.get_queue_status`. -/
def QM.getQueueStatus (s : QM) : QueueStatus where
  queue_length := s.queue.length
  preparing_count := s.preparing.length
  estimated_wait_time := s.calculateEstimatedWaitTime
  queue_orders := (s.queue.take 10).filterMap s.orders
  preparing_orders := s.preparing.filterMap s.orders

/-- `QueueManager.get_customer_status`: case-insensitive name match over the
main queue and then the preparing map. -/
def QM.getCustomerStatus (s : QM) (customer_name : String) : List Order :=
  ((s.queue.filterMap s.orders).filter
      (fun o => o.customer_name.toLower = customer_name.toLower)) ++
    ((s.preparing.filterMap s.orders).filter
      (fun o => o.customer_name.toLower = customer_name.toLower))

/-- The fields of the `QueueManager.get_analytics` dict. -/
structure Analytics where
  total_orders : Nat
  completed_today : Nat
  average_wait_time : ℚ
  peak_queue_length : Nat
  vip_count : Nat
  mobile_count : Nat
  regular_count : Nat
  recent_completions : List Order
deriving Repr

/-- `QueueManager.get_analytics`: the stats record, per-priority pending
counts, and the last ten completed orders. -/
def QM.getAnalytics (s : QM) : Analytics where
  total_orders := s.total_orders
  completed_today := s.completed_today
  average_wait_time := s.average_wait_time
  peak_queue_length := s.peak_queue_length
  vip_count := s.pqVIP.length
  mobile_count := s.pqMobile.length
  regular_count := s.pqRegular.length
  recent_completions :=
    (s.completed.drop (s.completed.length - 10)).filterMap s.orders

/-- `create_order` input validation in `app.py` (transport layer): the
request is rejected with HTTP 400 when `not customer_name or not items`,
i.e. when the name is absent or empty or the item list is empty. -/
def createOrderRejects (customer_name : Option String) (items : List String) :
    Bool :=
  match customer_name with
  | none => true
  | some n => n.isEmpty || items.isEmpty

/-- The cumulative-mean step of `_update_average_wait_time` with the
one-decimal rounding removed (used to compare the code's recurrence against
the exact arithmetic mean). -/
def updateAverageExact (n : Nat) (avg sample : ℚ) : ℚ :=
  if n = 1 then sample else (avg * ((n : ℚ) - 1) + sample) / (n : ℚ)

/-- One completion folded into the running `(completed_today, average)`
pair, exactly as `complete_order` does it. -/
def foldAvgStep (p : Nat × ℚ) (w : ℚ) : Nat × ℚ :=
  (p.1 + 1, updateAverageWaitTime (p.1 + 1) p.2 w)

/-- The statistics average after completing orders with actual waits `ws`
in order, starting from a fresh engine. -/
def foldAvg (ws : List ℚ) : ℚ :=
  (ws.foldl foldAvgStep (0, 0)).2

/-- The same fold with the exact (unrounded) cumulative-mean step. -/
def foldAvgExactStep (p : Nat × ℚ) (w : ℚ) : Nat × ℚ :=
  (p.1 + 1, updateAverageExact (p.1 + 1) p.2 w)

/-- The exact-recurrence average after waits `ws`. -/
def foldAvgExact (ws : List ℚ) : ℚ :=
  (ws.foldl foldAvgExactStep (0, 0)).2

/-- One engine mutation with its inputs (the actual wait handed to
`complete` is the elapsed-time environment input). -/
inductive Op where
  | add (customer_name : String) (items : List String) (priority : Priority)
  | next
  | complete (order_id : Nat) (actual_wait : ℚ)
  | cancel (order_id : Nat)

/-- Apply one mutation, dropping the returned value. -/
def applyOp (s : QM) : Op → QM
  | .add n i p => (s.addOrder n i p).2
  | .next => s.getNextOrder.2
  | .complete i w => (s.completeOrder i w).2
  | .cancel i => (s.cancelOrder i).2

/-- Run a list of mutations from a state. -/
def applyOps (s : QM) (ops : List Op) : QM :=
  ops.foldl applyOp s

/-- States the engine can actually be in: reachable from a fresh engine by
some sequence of mutations. -/
def Reachable (s : QM) : Prop :=
  ∃ ops : List Op, applyOps initQM ops = s

/-- Priority class of the stored order at an id (REGULAR as the
out-of-store default, matching the permissive coercion; never hit on the
ids the theorems touch). -/
def QM.prioAt (s : QM) (i : Nat) : Priority :=
  match s.orders i with
  | some o => o.priority
  | none => .REGULAR

/-- An id is live when some live structure of the engine still holds it. -/
def live (s : QM) (i : Nat) : Prop :=
  i ∈ s.queue ∨ i ∈ s.preparing ∨ i ∈ s.completed

/-- The reachability invariant of the engine, minus the peak-length bound
(which is restored by the statistics update at the end of `add_order`). -/
structure InvCore (s : QM) : Prop where
  hq : s.queue = s.pqVIP ++ s.pqMobile ++ s.pqRegular
  hnd : s.queue.Nodup
  hndP : s.preparing.Nodup
  hndC : s.completed.Nodup
  hQP : ∀ i ∈ s.queue, i ∉ s.preparing
  hQC : ∀ i ∈ s.queue, i ∉ s.completed
  hPC : ∀ i ∈ s.preparing, i ∉ s.completed
  hlt : ∀ i, live s i → i < s.nextId
  hsome : ∀ i, live s i → (s.orders i).isSome = true
  hid : ∀ i o, s.orders i = some o → o.id = i
  hstQ : ∀ i ∈ s.queue, s.statusAt i = .QUEUED
  hstP : ∀ i ∈ s.preparing, s.statusAt i = .PREPARING
  hstC : ∀ i ∈ s.completed, s.statusAt i = .COMPLETED
  hposQ : ∀ (k : Nat) (h : k < s.queue.length),
    s.posAt (s.queue.get ⟨k, h⟩) = some (k + 1)
  hposP : ∀ i ∈ s.preparing, s.posAt i = some 1
  hposC : ∀ i ∈ s.completed, s.posAt i = some 1
  hsortV : s.pqVIP.Pairwise (· < ·)
  hsortM : s.pqMobile.Pairwise (· < ·)
  hsortR : s.pqRegular.Pairwise (· < ·)
  hprV : ∀ i ∈ s.pqVIP, s.prioAt i = .VIP
  hprM : ∀ i ∈ s.pqMobile, s.prioAt i = .MOBILE_ORDER
  hprR : ∀ i ∈ s.pqRegular, s.prioAt i = .REGULAR

/-- The full reachability invariant. -/
structure Inv (s : QM) extends InvCore s : Prop where
  hpeak : s.queue.length ≤ s.peak_queue_length

/-- The invariant as it stands just before a `_rebuild_main_queue` call:
every clause of `InvCore` phrased against the concatenation of the three
priority deques (the main queue field itself may be stale). -/
structure PreInv (s : QM) : Prop where
  hndq : (s.pqVIP ++ s.pqMobile ++ s.pqRegular).Nodup
  hndP : s.preparing.Nodup
  hndC : s.completed.Nodup
  hQP : ∀ i ∈ s.pqVIP ++ s.pqMobile ++ s.pqRegular, i ∉ s.preparing
  hQC : ∀ i ∈ s.pqVIP ++ s.pqMobile ++ s.pqRegular, i ∉ s.completed
  hPC : ∀ i ∈ s.preparing, i ∉ s.completed
  hlt : ∀ i, (i ∈ s.pqVIP ++ s.pqMobile ++ s.pqRegular ∨ i ∈ s.preparing ∨
    i ∈ s.completed) → i < s.nextId
  hsome : ∀ i, (i ∈ s.pqVIP ++ s.pqMobile ++ s.pqRegular ∨ i ∈ s.preparing ∨
    i ∈ s.completed) → (s.orders i).isSome = true
  hid : ∀ i o, s.orders i = some o → o.id = i
  hstQ : ∀ i ∈ s.pqVIP ++ s.pqMobile ++ s.pqRegular, s.statusAt i = .QUEUED
  hstP : ∀ i ∈ s.preparing, s.statusAt i = .PREPARING
  hstC : ∀ i ∈ s.completed, s.statusAt i = .COMPLETED
  hposP : ∀ i ∈ s.preparing, s.posAt i = some 1
  hposC : ∀ i ∈ s.completed, s.posAt i = some 1
  hsortV : s.pqVIP.Pairwise (· < ·)
  hsortM : s.pqMobile.Pairwise (· < ·)
  hsortR : s.pqRegular.Pairwise (· < ·)
  hprV : ∀ i ∈ s.pqVIP, s.prioAt i = .VIP
  hprM : ∀ i ∈ s.pqMobile, s.prioAt i = .MOBILE_ORDER
  hprR : ∀ i ∈ s.pqRegular, s.prioAt i = .REGULAR

/-- The engine state right after the store insertion of the fresh order in
`add_order` (with the id counter bumped). -/
def addS1 (s : QM) (n : String) (it : List String) (p : Priority) : QM :=
  { s with
    orders := fun j => if j = s.nextId then some (newOrderOf s n it p)
      else s.orders j
    nextId := s.nextId + 1 }

/-- ... after the `self.priority_queues[priority].append(order)` line. -/
def addS2 (s : QM) (n : String) (it : List String) (p : Priority) : QM :=
  (addS1 s n it p).setPq p ((addS1 s n it p).pq p ++ [s.nextId])

/-- ... after the `self._rebuild_main_queue()` line. -/
def addS3 (s : QM) (n : String) (it : List String) (p : Priority) : QM :=
  rebuildMainQueue (addS2 s n it p)

/-- Overwrite the four statistics fields. -/
def setStats (s : QM) (a b : Nat) (w : ℚ) (pk : Nat) : QM :=
  { s with
    total_orders := a
    completed_today := b
    average_wait_time := w
    peak_queue_length := pk }

/-- The engine state inside `get_next_order` right before the rebuild:
head popped, deleted from its priority deque, marked PREPARING and filed. -/
def nextS3 (s : QM) (i : Nat) (rest : List Nat) : QM :=
  let s2 := removeFromPriorityQueues { s with queue := rest } i
  { s2 with
    orders := updStore s2.orders i (setStatus .PREPARING)
    preparing := s2.preparing ++ [i] }

/-- ... and after the rebuild. -/
def nextS4 (s : QM) (i : Nat) (rest : List Nat) : QM :=
  rebuildMainQueue (nextS3 s i rest)

/-- The engine state after a successful `complete_order(i)` with actual
wait `w`. -/
def compS2 (s : QM) (i : Nat) (w : ℚ) : QM :=
  { s with
    preparing := s.preparing.erase i
    orders := updStore s.orders i (setStatus .COMPLETED)
    completed := s.completed ++ [i]
    completed_today := s.completed_today + 1
    average_wait_time :=
      updateAverageWaitTime (s.completed_today + 1) s.average_wait_time w }

/-- The engine state inside the pending branch of `cancel_order` after the
status write and the `self.queue.remove(order)` line. -/
def cancS1 (s : QM) (i : Nat) : QM :=
  { s with
    orders := updStore s.orders i (setStatus .CANCELLED)
    queue := s.queue.erase i }

/-- ... and after the priority-deque removal loop. -/
def cancS2 (s : QM) (i : Nat) : QM :=
  removeFromPriorityQueues (cancS1 s i) i

/-- The engine state after cancelling a preparing order. -/
def cancPrep (s : QM) (i : Nat) : QM :=
  { s with
    preparing := s.preparing.erase i
    orders := updStore s.orders i (setStatus .CANCELLED) }

/-- A one-submission state for witnesses: a single REGULAR order, id 0. -/
def wAdd1 : QM := applyOps initQM [.add "A" ["Latte"] .REGULAR]

/-- A state with one PREPARING order (id 0) and empty pending queue. -/
def wPrep1 : QM := applyOps initQM [.add "A" ["Latte"] .REGULAR, .next]

/-- The maximum unified-queue length observed along a run, the initial
state's length included. -/
def observedMax (s : QM) : List Op → Nat
  | [] => s.queue.length
  | op :: rest => max s.queue.length (observedMax (applyOp s op) rest)

theorem updStore_self (m : Nat → Option Order) (i : Nat) (f : Order → Order) :
    updStore m i f i = (m i).map f := by
  simp [updStore]

theorem updStore_ne (m : Nat → Option Order) (i j : Nat) (f : Order → Order)
    (h : j ≠ i) : updStore m i f j = m j := by
  simp [updStore, h]

theorem assignPositions_not_mem (q : List Nat) (pos : Nat)
    (m : Nat → Option Order) (i : Nat) (h : i ∉ q) :
    assignPositions q pos m i = m i := by
  induction q generalizing pos m with
  | nil => rfl
  | cons j rest ih =>
      simp only [List.mem_cons, not_or] at h
      simp only [assignPositions]
      rw [ih _ _ h.2, updStore_ne _ _ _ _ h.1]

theorem assignPositions_get (q : List Nat) (pos : Nat) (m : Nat → Option Order)
    (hnd : q.Nodup) (k : Nat) (hk : k < q.length) :
    assignPositions q pos m (q.get ⟨k, hk⟩) =
      (m (q.get ⟨k, hk⟩)).map (setPos (pos + k)) := by
  induction q generalizing pos m k with
  | nil => exact absurd hk (by simp)
  | cons j rest ih =>
      rcases List.nodup_cons.mp hnd with ⟨hj, hrest⟩
      match k with
      | 0 =>
          simp only [List.get, assignPositions]
          rw [assignPositions_not_mem _ _ _ _ hj, updStore_self, Nat.add_zero]
      | Nat.succ k' =>
          have hk' : k' < rest.length := Nat.lt_of_succ_lt_succ hk
          have hne : rest.get ⟨k', hk'⟩ ≠ j := by
            intro he
            exact hj (he ▸ List.get_mem rest k' hk')
          simp only [List.get, assignPositions]
          rw [ih _ _ hrest k' hk', updStore_ne _ _ _ _ hne]
          have : pos + 1 + k' = pos + (k' + 1) := by omega
          rw [this]

/-- The store after a rebuild differs from the old one at most in the
`position_in_queue` field at each id. -/
theorem assignPositions_apply (q : List Nat) (pos : Nat)
    (m : Nat → Option Order) (i : Nat) :
    assignPositions q pos m i = m i ∨
      ∃ p, assignPositions q pos m i = (m i).map (setPos p) := by
  induction q generalizing pos m with
  | nil => exact Or.inl rfl
  | cons j rest ih =>
      simp only [assignPositions]
      rcases ih (pos + 1) (updStore m j (setPos pos)) with h | ⟨p, h⟩
      · by_cases hij : i = j
        · subst hij
          rw [h, updStore_self]
          exact Or.inr ⟨pos, rfl⟩
        · rw [h, updStore_ne _ _ _ _ hij]
          exact Or.inl rfl
      · by_cases hij : i = j
        · subst hij
          rw [h, updStore_self]
          refine Or.inr ⟨p, ?_⟩
          rw [Option.map_map]
          rfl
        · rw [h, updStore_ne _ _ _ _ hij]
          exact Or.inr ⟨p, rfl⟩

theorem assignPositions_status (q : List Nat) (pos : Nat)
    (m : Nat → Option Order) (i : Nat) :
    (assignPositions q pos m i).map Order.status = (m i).map Order.status := by
  rcases assignPositions_apply q pos m i with h | ⟨p, h⟩
  · rw [h]
  · rw [h, Option.map_map]; rfl

theorem assignPositions_priority (q : List Nat) (pos : Nat)
    (m : Nat → Option Order) (i : Nat) :
    (assignPositions q pos m i).map Order.priority =
      (m i).map Order.priority := by
  rcases assignPositions_apply q pos m i with h | ⟨p, h⟩
  · rw [h]
  · rw [h, Option.map_map]; rfl

theorem assignPositions_est (q : List Nat) (pos : Nat)
    (m : Nat → Option Order) (i : Nat) :
    (assignPositions q pos m i).map Order.estimated_wait_time =
      (m i).map Order.estimated_wait_time := by
  rcases assignPositions_apply q pos m i with h | ⟨p, h⟩
  · rw [h]
  · rw [h, Option.map_map]; rfl

theorem assignPositions_id (q : List Nat) (pos : Nat)
    (m : Nat → Option Order) (i : Nat) :
    (assignPositions q pos m i).map Order.id = (m i).map Order.id := by
  rcases assignPositions_apply q pos m i with h | ⟨p, h⟩
  · rw [h]
  · rw [h, Option.map_map]; rfl

theorem assignPositions_isSome (q : List Nat) (pos : Nat)
    (m : Nat → Option Order) (i : Nat) :
    (assignPositions q pos m i).isSome = (m i).isSome := by
  rcases assignPositions_apply q pos m i with h | ⟨p, h⟩
  · rw [h]
  · cases hm : m i <;> simp [h, hm]

theorem statusAt_eq (s : QM) (i : Nat) :
    s.statusAt i = ((s.orders i).map Order.status).getD .CANCELLED := by
  cases h : s.orders i <;> simp [QM.statusAt, h]

theorem posAt_eq (s : QM) (i : Nat) :
    s.posAt i = ((s.orders i).map Order.position_in_queue).getD none := by
  cases h : s.orders i <;> simp [QM.posAt, h]

theorem prioAt_eq (s : QM) (i : Nat) :
    s.prioAt i = ((s.orders i).map Order.priority).getD .REGULAR := by
  cases h : s.orders i <;> simp [QM.prioAt, h]

theorem estAt_eq (s : QM) (i : Nat) :
    s.estAt i = ((s.orders i).map Order.estimated_wait_time).getD 0 := by
  cases h : s.orders i <;> simp [QM.estAt, h]

theorem rebuild_orders (s : QM) :
    (rebuildMainQueue s).orders =
      assignPositions (s.pqVIP ++ s.pqMobile ++ s.pqRegular) 1 s.orders := rfl

theorem rebuild_queue (s : QM) :
    (rebuildMainQueue s).queue = s.pqVIP ++ s.pqMobile ++ s.pqRegular := rfl

theorem rebuild_statusAt (s : QM) (i : Nat) :
    (rebuildMainQueue s).statusAt i = s.statusAt i := by
  rw [statusAt_eq, statusAt_eq, rebuild_orders, assignPositions_status]

theorem rebuild_prioAt (s : QM) (i : Nat) :
    (rebuildMainQueue s).prioAt i = s.prioAt i := by
  rw [prioAt_eq, prioAt_eq, rebuild_orders, assignPositions_priority]

theorem rebuild_estAt (s : QM) (i : Nat) :
    (rebuildMainQueue s).estAt i = s.estAt i := by
  rw [estAt_eq, estAt_eq, rebuild_orders, assignPositions_est]

theorem rebuild_isSome (s : QM) (i : Nat) :
    ((rebuildMainQueue s).orders i).isSome = (s.orders i).isSome := by
  rw [rebuild_orders, assignPositions_isSome]

theorem rebuild_posAt_not_mem (s : QM) (i : Nat)
    (h : i ∉ s.pqVIP ++ s.pqMobile ++ s.pqRegular) :
    (rebuildMainQueue s).posAt i = s.posAt i := by
  rw [posAt_eq, posAt_eq, rebuild_orders, assignPositions_not_mem _ _ _ _ h]

theorem rebuild_posAt_get (s : QM)
    (hnd : (s.pqVIP ++ s.pqMobile ++ s.pqRegular).Nodup)
    (hsome : ∀ i ∈ s.pqVIP ++ s.pqMobile ++ s.pqRegular,
      (s.orders i).isSome = true)
    (k : Nat) (hk : k < (s.pqVIP ++ s.pqMobile ++ s.pqRegular).length) :
    (rebuildMainQueue s).posAt ((s.pqVIP ++ s.pqMobile ++ s.pqRegular).get
      ⟨k, hk⟩) = some (k + 1) := by
  obtain ⟨o, ho⟩ := Option.isSome_iff_exists.mp
    (hsome _ (List.get_mem (s.pqVIP ++ s.pqMobile ++ s.pqRegular) k hk))
  rw [posAt_eq, rebuild_orders, assignPositions_get _ 1 s.orders hnd k hk, ho]
  simp [setPos, Nat.add_comm]

/-- Rebuilding from a pre-invariant state restores the core invariant. -/
theorem invCore_rebuild (s : QM) (h : PreInv s) :
    InvCore (rebuildMainQueue s) := by
  have hqueue : (rebuildMainQueue s).queue =
    s.pqVIP ++ s.pqMobile ++ s.pqRegular := rebuild_queue s
  have hpqV : (rebuildMainQueue s).pqVIP = s.pqVIP := rfl
  have hpqM : (rebuildMainQueue s).pqMobile = s.pqMobile := rfl
  have hpqR : (rebuildMainQueue s).pqRegular = s.pqRegular := rfl
  have hprep : (rebuildMainQueue s).preparing = s.preparing := rfl
  have hcomp : (rebuildMainQueue s).completed = s.completed := rfl
  have hnext : (rebuildMainQueue s).nextId = s.nextId := rfl
  refine ⟨?_, ?_, ?_, ?_, ?_, ?_, ?_, ?_, ?_, ?_, ?_, ?_, ?_, ?_, ?_, ?_, ?_,
    ?_, ?_, ?_, ?_, ?_⟩
  · rw [hqueue, hpqV, hpqM, hpqR]
  · rw [hqueue]; exact h.hndq
  · rw [hprep]; exact h.hndP
  · rw [hcomp]; exact h.hndC
  · rw [hqueue, hprep]; exact h.hQP
  · rw [hqueue, hcomp]; exact h.hQC
  · rw [hprep, hcomp]; exact h.hPC
  · intro i hi
    rw [hnext]
    refine h.hlt i ?_
    rwa [live, hqueue, hprep, hcomp] at hi
  · intro i hi
    rw [rebuild_isSome]
    refine h.hsome i ?_
    rwa [live, hqueue, hprep, hcomp] at hi
  · intro i o ho
    rcases assignPositions_apply (s.pqVIP ++ s.pqMobile ++ s.pqRegular) 1
      s.orders i with he | ⟨p, he⟩
    · rw [rebuild_orders, he] at ho
      exact h.hid i o ho
    · rw [rebuild_orders, he] at ho
      cases hm : s.orders i with
      | none => rw [hm] at ho; exact absurd ho (by simp)
      | some o' =>
          rw [hm] at ho
          have hoo : setPos p o' = o := by simpa using ho
          rw [← hoo]
          exact h.hid i o' hm
  · intro i hi
    rw [rebuild_statusAt]
    exact h.hstQ i (hqueue ▸ hi)
  · intro i hi
    rw [rebuild_statusAt]
    exact h.hstP i (hprep ▸ hi)
  · intro i hi
    rw [rebuild_statusAt]
    exact h.hstC i (hcomp ▸ hi)
  · intro k hk
    have hk' : k < (s.pqVIP ++ s.pqMobile ++ s.pqRegular).length := by
      rw [hqueue] at hk; exact hk
    have : (rebuildMainQueue s).queue.get ⟨k, hk⟩ =
        (s.pqVIP ++ s.pqMobile ++ s.pqRegular).get ⟨k, hk'⟩ := rfl
    rw [this]
    exact rebuild_posAt_get s h.hndq (fun i hi => h.hsome i (Or.inl hi)) k hk'
  · intro i hi
    rw [rebuild_posAt_not_mem s i (h.hQP i · (hprep ▸ hi))]
    exact h.hposP i (hprep ▸ hi)
  · intro i hi
    rw [rebuild_posAt_not_mem s i (h.hQC i · (hcomp ▸ hi))]
    exact h.hposC i (hcomp ▸ hi)
  · rw [hpqV]; exact h.hsortV
  · rw [hpqM]; exact h.hsortM
  · rw [hpqR]; exact h.hsortR
  · intro i hi
    rw [rebuild_prioAt]
    exact h.hprV i (hpqV ▸ hi)
  · intro i hi
    rw [rebuild_prioAt]
    exact h.hprM i (hpqM ▸ hi)
  · intro i hi
    rw [rebuild_prioAt]
    exact h.hprR i (hpqR ▸ hi)

theorem statusAt_congr {s t : QM} {j : Nat} (h : t.orders j = s.orders j) :
    t.statusAt j = s.statusAt j := by
  rw [statusAt_eq, statusAt_eq, h]

theorem posAt_congr {s t : QM} {j : Nat} (h : t.orders j = s.orders j) :
    t.posAt j = s.posAt j := by
  rw [posAt_eq, posAt_eq, h]

theorem prioAt_congr {s t : QM} {j : Nat} (h : t.orders j = s.orders j) :
    t.prioAt j = s.prioAt j := by
  rw [prioAt_eq, prioAt_eq, h]

theorem estAt_congr {s t : QM} {j : Nat} (h : t.orders j = s.orders j) :
    t.estAt j = s.estAt j := by
  rw [estAt_eq, estAt_eq, h]

theorem setPq_orders (s : QM) (p : Priority) (l : List Nat) :
    (s.setPq p l).orders = s.orders := by cases p <;> rfl

theorem setPq_preparing (s : QM) (p : Priority) (l : List Nat) :
    (s.setPq p l).preparing = s.preparing := by cases p <;> rfl

theorem setPq_completed (s : QM) (p : Priority) (l : List Nat) :
    (s.setPq p l).completed = s.completed := by cases p <;> rfl

theorem setPq_nextId (s : QM) (p : Priority) (l : List Nat) :
    (s.setPq p l).nextId = s.nextId := by cases p <;> rfl

theorem nodup_insert_mid (X Y : List Nat) (i : Nat) (h : (X ++ Y).Nodup)
    (hi : i ∉ X ++ Y) : (X ++ i :: Y).Nodup := by
  rw [List.nodup_middle]
  exact List.nodup_cons.mpr ⟨hi, h⟩

theorem addOrder_snd (s : QM) (n : String) (it : List String) (p : Priority) :
    (s.addOrder n it p).2 = { addS3 s n it p with
      total_orders := (addS3 s n it p).total_orders + 1
      peak_queue_length :=
        if (addS3 s n it p).queue.length > (addS3 s n it p).peak_queue_length
        then (addS3 s n it p).queue.length
        else (addS3 s n it p).peak_queue_length } := rfl

theorem addOrder_fst (s : QM) (n : String) (it : List String) (p : Priority) :
    (s.addOrder n it p).1 =
      ((addS3 s n it p).orders s.nextId).getD (newOrderOf s n it p) := rfl

/-- Common core of the pre-invariant proof for `add_order`: a state `t` that
agrees with `s` except that a fresh QUEUED order was stored at `s.nextId`,
the counter was bumped, and the id was spliced into the priority deques. -/
theorem preInv_insert_generic (s t : QM) (hInv : Inv s) (o : Order)
    (X Y : List Nat)
    (hXY : X ++ Y = s.pqVIP ++ s.pqMobile ++ s.pqRegular)
    (hconcat : t.pqVIP ++ t.pqMobile ++ t.pqRegular = X ++ s.nextId :: Y)
    (horders : ∀ j, j ≠ s.nextId → t.orders j = s.orders j)
    (hoi : t.orders s.nextId = some o)
    (hnext : t.nextId = s.nextId + 1)
    (hprep : t.preparing = s.preparing)
    (hcomp : t.completed = s.completed)
    (host : o.status = .QUEUED) (hoid : o.id = s.nextId)
    (hsV : t.pqVIP.Pairwise (· < ·))
    (hsM : t.pqMobile.Pairwise (· < ·))
    (hsR : t.pqRegular.Pairwise (· < ·))
    (hpV : ∀ j ∈ t.pqVIP, t.prioAt j = .VIP)
    (hpM : ∀ j ∈ t.pqMobile, t.prioAt j = .MOBILE_ORDER)
    (hpR : ∀ j ∈ t.pqRegular, t.prioAt j = .REGULAR) :
    PreInv t := by
  have hq := hInv.hq
  have hliveq : ∀ j, j ∈ s.pqVIP ++ s.pqMobile ++ s.pqRegular → live s j := by
    intro j hj
    rw [live, hq]
    exact Or.inl hj
  have hltq : ∀ j ∈ s.pqVIP ++ s.pqMobile ++ s.pqRegular, j < s.nextId :=
    fun j hj => hInv.hlt j (hliveq j hj)
  have hfreshq : s.nextId ∉ s.pqVIP ++ s.pqMobile ++ s.pqRegular :=
    fun hm => lt_irrefl _ (hltq _ hm)
  have hfreshP : s.nextId ∉ s.preparing :=
    fun hm => lt_irrefl _ (hInv.hlt _ (Or.inr (Or.inl hm)))
  have hfreshC : s.nextId ∉ s.completed :=
    fun hm => lt_irrefl _ (hInv.hlt _ (Or.inr (Or.inr hm)))
  have hmem : ∀ j, j ∈ t.pqVIP ++ t.pqMobile ++ t.pqRegular ↔
      j ∈ s.pqVIP ++ s.pqMobile ++ s.pqRegular ∨ j = s.nextId := by
    intro j
    rw [hconcat, ← hXY]
    simp only [List.mem_append, List.mem_cons]
    tauto
  have hndold : (X ++ Y).Nodup := by
    rw [hXY, ← hq]
    exact hInv.hnd
  have hstQs : ∀ j ∈ s.pqVIP ++ s.pqMobile ++ s.pqRegular,
      s.statusAt j = .QUEUED := by
    intro j hj
    refine hInv.hstQ j ?_
    rw [hq]
    exact hj
  refine ⟨?_, ?_, ?_, ?_, ?_, ?_, ?_, ?_, ?_, ?_, ?_, ?_, ?_, ?_, hsV, hsM,
    hsR, hpV, hpM, hpR⟩
  · rw [hconcat]
    refine nodup_insert_mid X Y s.nextId hndold ?_
    rw [hXY]
    exact hfreshq
  · rw [hprep]; exact hInv.hndP
  · rw [hcomp]; exact hInv.hndC
  · intro j hj
    rw [hprep]
    rcases (hmem j).mp hj with hold | rfl
    · refine hInv.hQP j ?_
      rw [hq]
      exact hold
    · exact hfreshP
  · intro j hj
    rw [hcomp]
    rcases (hmem j).mp hj with hold | rfl
    · refine hInv.hQC j ?_
      rw [hq]
      exact hold
    · exact hfreshC
  · intro j hj
    rw [hcomp]
    rw [hprep] at hj
    exact hInv.hPC j hj
  · intro j hj
    rw [hnext]
    rw [hprep, hcomp] at hj
    rcases hj with hj | hj | hj
    · rcases (hmem j).mp hj with hold | rfl
      · exact Nat.lt_succ_of_lt (hltq j hold)
      · exact Nat.lt_succ_self _
    · exact Nat.lt_succ_of_lt (hInv.hlt j (Or.inr (Or.inl hj)))
    · exact Nat.lt_succ_of_lt (hInv.hlt j (Or.inr (Or.inr hj)))
  · intro j hj
    rw [hprep, hcomp] at hj
    by_cases hji : j = s.nextId
    · subst hji
      rw [hoi]
      rfl
    · rw [horders j hji]
      rcases hj with hj | hj | hj
      · rcases (hmem j).mp hj with hold | rfl
        · exact hInv.hsome j (hliveq j hold)
        · exact absurd rfl hji
      · exact hInv.hsome j (Or.inr (Or.inl hj))
      · exact hInv.hsome j (Or.inr (Or.inr hj))
  · intro j o' ho'
    by_cases hji : j = s.nextId
    · subst hji
      rw [hoi] at ho'
      cases ho'
      exact hoid
    · rw [horders j hji] at ho'
      exact hInv.hid j o' ho'
  · intro j hj
    rcases (hmem j).mp hj with hold | rfl
    · have hji : j ≠ s.nextId := Nat.ne_of_lt (hltq j hold)
      rw [statusAt_congr (horders j hji)]
      exact hstQs j hold
    · rw [statusAt_eq, hoi]
      simpa using host
  · intro j hj
    rw [hprep] at hj
    have hji : j ≠ s.nextId := fun he => hfreshP (he ▸ hj)
    rw [statusAt_congr (horders j hji)]
    exact hInv.hstP j hj
  · intro j hj
    rw [hcomp] at hj
    have hji : j ≠ s.nextId := fun he => hfreshC (he ▸ hj)
    rw [statusAt_congr (horders j hji)]
    exact hInv.hstC j hj
  · intro j hj
    rw [hprep] at hj
    have hji : j ≠ s.nextId := fun he => hfreshP (he ▸ hj)
    rw [posAt_congr (horders j hji)]
    exact hInv.hposP j hj
  · intro j hj
    rw [hcomp] at hj
    have hji : j ≠ s.nextId := fun he => hfreshC (he ▸ hj)
    rw [posAt_congr (horders j hji)]
    exact hInv.hposC j hj

theorem preInv_addS2 (s : QM) (hInv : Inv s) (n : String) (it : List String)
    (p : Priority) : PreInv (addS2 s n it p) := by
  have hq := hInv.hq
  have hltq : ∀ j ∈ s.pqVIP ++ s.pqMobile ++ s.pqRegular, j < s.nextId := by
    intro j hj
    refine hInv.hlt j ?_
    rw [live, hq]
    exact Or.inl hj
  have hltV : ∀ j ∈ s.pqVIP, j < s.nextId := fun j hj => hltq j (by simp [hj])
  have hltM : ∀ j ∈ s.pqMobile, j < s.nextId := fun j hj => hltq j (by simp [hj])
  have hltR : ∀ j ∈ s.pqRegular, j < s.nextId := fun j hj => hltq j (by simp [hj])
  have horders : ∀ j, j ≠ s.nextId → (addS2 s n it p).orders j = s.orders j := by
    intro j hj
    rw [addS2, setPq_orders]
    simp [addS1, hj]
  have hoi : (addS2 s n it p).orders s.nextId = some (newOrderOf s n it p) := by
    rw [addS2, setPq_orders]
    simp [addS1]
  have hprioNew : (addS2 s n it p).prioAt s.nextId = p := by
    rw [prioAt_eq, hoi]
    rfl
  cases p with
  | VIP =>
      refine preInv_insert_generic s _ hInv (newOrderOf s n it .VIP) s.pqVIP
        (s.pqMobile ++ s.pqRegular) (List.append_assoc _ _ _).symm ?_ horders
        hoi rfl rfl rfl rfl rfl ?_ hInv.hsortM hInv.hsortR ?_ ?_ ?_
      · show (s.pqVIP ++ [s.nextId]) ++ s.pqMobile ++ s.pqRegular = _
        simp
      · show (s.pqVIP ++ [s.nextId]).Pairwise (· < ·)
        refine List.pairwise_append.mpr
          ⟨hInv.hsortV, List.pairwise_singleton _ _, ?_⟩
        intro a ha b hb
        have hb' : b = s.nextId := by simpa using hb
        subst hb'
        exact hltV a ha
      · intro j hj
        have hj' : j ∈ s.pqVIP ++ [s.nextId] := hj
        rcases List.mem_append.mp hj' with hold | hnew
        · have hne : j ≠ s.nextId := Nat.ne_of_lt (hltV j hold)
          rw [prioAt_congr (horders j hne)]
          exact hInv.hprV j hold
        · have hj2 : j = s.nextId := by simpa using hnew
          subst hj2
          exact hprioNew
      · intro j hj
        have hj' : j ∈ s.pqMobile := hj
        have hne : j ≠ s.nextId := Nat.ne_of_lt (hltM j hj')
        rw [prioAt_congr (horders j hne)]
        exact hInv.hprM j hj'
      · intro j hj
        have hj' : j ∈ s.pqRegular := hj
        have hne : j ≠ s.nextId := Nat.ne_of_lt (hltR j hj')
        rw [prioAt_congr (horders j hne)]
        exact hInv.hprR j hj'
  | MOBILE_ORDER =>
      refine preInv_insert_generic s _ hInv (newOrderOf s n it .MOBILE_ORDER)
        (s.pqVIP ++ s.pqMobile) s.pqRegular (by simp) ?_ horders hoi rfl rfl
        rfl rfl rfl hInv.hsortV ?_ hInv.hsortR ?_ ?_ ?_
      · show s.pqVIP ++ (s.pqMobile ++ [s.nextId]) ++ s.pqRegular = _
        simp
      · show (s.pqMobile ++ [s.nextId]).Pairwise (· < ·)
        refine List.pairwise_append.mpr
          ⟨hInv.hsortM, List.pairwise_singleton _ _, ?_⟩
        intro a ha b hb
        have hb' : b = s.nextId := by simpa using hb
        subst hb'
        exact hltM a ha
      · intro j hj
        have hj' : j ∈ s.pqVIP := hj
        have hne : j ≠ s.nextId := Nat.ne_of_lt (hltV j hj')
        rw [prioAt_congr (horders j hne)]
        exact hInv.hprV j hj'
      · intro j hj
        have hj' : j ∈ s.pqMobile ++ [s.nextId] := hj
        rcases List.mem_append.mp hj' with hold | hnew
        · have hne : j ≠ s.nextId := Nat.ne_of_lt (hltM j hold)
          rw [prioAt_congr (horders j hne)]
          exact hInv.hprM j hold
        · have hj2 : j = s.nextId := by simpa using hnew
          subst hj2
          exact hprioNew
      · intro j hj
        have hj' : j ∈ s.pqRegular := hj
        have hne : j ≠ s.nextId := Nat.ne_of_lt (hltR j hj')
        rw [prioAt_congr (horders j hne)]
        exact hInv.hprR j hj'
  | REGULAR =>
      refine preInv_insert_generic s _ hInv (newOrderOf s n it .REGULAR)
        (s.pqVIP ++ s.pqMobile ++ s.pqRegular) [] (by simp) ?_ horders hoi rfl
        rfl rfl rfl rfl hInv.hsortV hInv.hsortM ?_ ?_ ?_ ?_
      · show s.pqVIP ++ s.pqMobile ++ (s.pqRegular ++ [s.nextId]) = _
        simp
      · show (s.pqRegular ++ [s.nextId]).Pairwise (· < ·)
        refine List.pairwise_append.mpr
          ⟨hInv.hsortR, List.pairwise_singleton _ _, ?_⟩
        intro a ha b hb
        have hb' : b = s.nextId := by simpa using hb
        subst hb'
        exact hltR a ha
      · intro j hj
        have hj' : j ∈ s.pqVIP := hj
        have hne : j ≠ s.nextId := Nat.ne_of_lt (hltV j hj')
        rw [prioAt_congr (horders j hne)]
        exact hInv.hprV j hj'
      · intro j hj
        have hj' : j ∈ s.pqMobile := hj
        have hne : j ≠ s.nextId := Nat.ne_of_lt (hltM j hj')
        rw [prioAt_congr (horders j hne)]
        exact hInv.hprM j hj'
      · intro j hj
        have hj' : j ∈ s.pqRegular ++ [s.nextId] := hj
        rcases List.mem_append.mp hj' with hold | hnew
        · have hne : j ≠ s.nextId := Nat.ne_of_lt (hltR j hold)
          rw [prioAt_congr (horders j hne)]
          exact hInv.hprR j hold
        · have hj2 : j = s.nextId := by simpa using hnew
          subst hj2
          exact hprioNew

/-- `InvCore` does not mention the statistics fields. -/
theorem invCore_setStats (s : QM) (h : InvCore s) (a b : Nat) (w : ℚ)
    (pk : Nat) : InvCore (setStats s a b w pk) :=
  ⟨h.hq, h.hnd, h.hndP, h.hndC, h.hQP, h.hQC, h.hPC, h.hlt, h.hsome, h.hid,
    h.hstQ, h.hstP, h.hstC, h.hposQ, h.hposP, h.hposC, h.hsortV, h.hsortM,
    h.hsortR, h.hprV, h.hprM, h.hprR⟩

theorem addOrder_snd_setStats (s : QM) (n : String) (it : List String)
    (p : Priority) :
    (s.addOrder n it p).2 = setStats (addS3 s n it p)
      ((addS3 s n it p).total_orders + 1) (addS3 s n it p).completed_today
      (addS3 s n it p).average_wait_time
      (if (addS3 s n it p).queue.length > (addS3 s n it p).peak_queue_length
        then (addS3 s n it p).queue.length
        else (addS3 s n it p).peak_queue_length) := rfl

theorem inv_addOrder (s : QM) (hInv : Inv s) (n : String) (it : List String)
    (p : Priority) : Inv (s.addOrder n it p).2 := by
  rw [addOrder_snd_setStats]
  have hcore : InvCore (addS3 s n it p) :=
    invCore_rebuild _ (preInv_addS2 s hInv n it p)
  refine ⟨invCore_setStats _ hcore _ _ _ _, ?_⟩
  show (addS3 s n it p).queue.length ≤
    (if (addS3 s n it p).queue.length > (addS3 s n it p).peak_queue_length
      then (addS3 s n it p).queue.length
      else (addS3 s n it p).peak_queue_length)
  split <;> omega

theorem updStore_isSome (m : Nat → Option Order) (i : Nat) (f : Order → Order)
    (j : Nat) : (updStore m i f j).isSome = (m j).isSome := by
  by_cases h : j = i
  · subst h
    rw [updStore_self]
    cases m j <;> rfl
  · rw [updStore_ne _ _ _ _ h]

theorem updStore_setStatus_posAt {s t : QM} (i : Nat) (st : OrderStatus)
    (h : t.orders = updStore s.orders i (setStatus st)) (j : Nat) :
    t.posAt j = s.posAt j := by
  rw [posAt_eq, posAt_eq, h]
  by_cases hj : j = i
  · subst hj
    rw [updStore_self]
    cases s.orders j <;> rfl
  · rw [updStore_ne _ _ _ _ hj]

theorem updStore_setStatus_prioAt {s t : QM} (i : Nat) (st : OrderStatus)
    (h : t.orders = updStore s.orders i (setStatus st)) (j : Nat) :
    t.prioAt j = s.prioAt j := by
  rw [prioAt_eq, prioAt_eq, h]
  by_cases hj : j = i
  · subst hj
    rw [updStore_self]
    cases s.orders j <;> rfl
  · rw [updStore_ne _ _ _ _ hj]

theorem updStore_setStatus_estAt {s t : QM} (i : Nat) (st : OrderStatus)
    (h : t.orders = updStore s.orders i (setStatus st)) (j : Nat) :
    t.estAt j = s.estAt j := by
  rw [estAt_eq, estAt_eq, h]
  by_cases hj : j = i
  · subst hj
    rw [updStore_self]
    cases s.orders j <;> rfl
  · rw [updStore_ne _ _ _ _ hj]

theorem updStore_setStatus_statusAt_self {s t : QM} (i : Nat)
    (st : OrderStatus) (h : t.orders = updStore s.orders i (setStatus st))
    (hs : (s.orders i).isSome = true) : t.statusAt i = st := by
  obtain ⟨o, ho⟩ := Option.isSome_iff_exists.mp hs
  rw [statusAt_eq, h, updStore_self, ho]
  rfl

theorem updStore_setStatus_statusAt_ne {s t : QM} (i : Nat) (st : OrderStatus)
    (h : t.orders = updStore s.orders i (setStatus st)) (j : Nat)
    (hj : j ≠ i) : t.statusAt j = s.statusAt j := by
  rw [statusAt_eq, statusAt_eq, h, updStore_ne _ _ _ _ hj]

theorem updStore_setStatus_id {s t : QM} (i : Nat) (st : OrderStatus)
    (h : t.orders = updStore s.orders i (setStatus st))
    (hid : ∀ j o, s.orders j = some o → o.id = j) :
    ∀ j o, t.orders j = some o → o.id = j := by
  intro j o ho
  rw [h] at ho
  by_cases hj : j = i
  · subst hj
    rw [updStore_self] at ho
    cases hm : s.orders j with
    | none => rw [hm] at ho; exact absurd ho (by simp)
    | some o' =>
        rw [hm] at ho
        have : setStatus st o' = o := by simpa using ho
        rw [← this]
        exact hid j o' hm
  · rw [updStore_ne _ _ _ _ hj] at ho
    exact hid j o ho

theorem removePQ_orders (s : QM) (i : Nat) :
    (removeFromPriorityQueues s i).orders = s.orders := by
  unfold removeFromPriorityQueues
  split_ifs <;> rfl

theorem removePQ_preparing (s : QM) (i : Nat) :
    (removeFromPriorityQueues s i).preparing = s.preparing := by
  unfold removeFromPriorityQueues
  split_ifs <;> rfl

theorem removePQ_completed (s : QM) (i : Nat) :
    (removeFromPriorityQueues s i).completed = s.completed := by
  unfold removeFromPriorityQueues
  split_ifs <;> rfl

theorem removePQ_nextId (s : QM) (i : Nat) :
    (removeFromPriorityQueues s i).nextId = s.nextId := by
  unfold removeFromPriorityQueues
  split_ifs <;> rfl

theorem removePQ_queue (s : QM) (i : Nat) :
    (removeFromPriorityQueues s i).queue = s.queue := by
  unfold removeFromPriorityQueues
  split_ifs <;> rfl

theorem removePQ_pqVIP_sublist (s : QM) (i : Nat) :
    (removeFromPriorityQueues s i).pqVIP.Sublist s.pqVIP := by
  unfold removeFromPriorityQueues
  split_ifs <;> first | exact List.erase_sublist _ _ | exact List.Sublist.refl _

theorem removePQ_pqMobile_sublist (s : QM) (i : Nat) :
    (removeFromPriorityQueues s i).pqMobile.Sublist s.pqMobile := by
  unfold removeFromPriorityQueues
  split_ifs <;> first | exact List.erase_sublist _ _ | exact List.Sublist.refl _

theorem removePQ_pqRegular_sublist (s : QM) (i : Nat) :
    (removeFromPriorityQueues s i).pqRegular.Sublist s.pqRegular := by
  unfold removeFromPriorityQueues
  split_ifs <;> first | exact List.erase_sublist _ _ | exact List.Sublist.refl _

/-- When the id is present in some priority deque, the removal loop deletes
exactly its first occurrence from the concatenation. -/
theorem removePQ_concat (s : QM) (i : Nat)
    (hmem : i ∈ s.pqVIP ++ s.pqMobile ++ s.pqRegular) :
    (removeFromPriorityQueues s i).pqVIP ++
        (removeFromPriorityQueues s i).pqMobile ++
        (removeFromPriorityQueues s i).pqRegular =
      (s.pqVIP ++ s.pqMobile ++ s.pqRegular).erase i := by
  by_cases hV : i ∈ s.pqVIP
  · have hVM : i ∈ s.pqVIP ++ s.pqMobile := List.mem_append_left _ hV
    rw [List.erase_append_left _ hVM, List.erase_append_left _ hV]
    simp [removeFromPriorityQueues, hV]
  · by_cases hM : i ∈ s.pqMobile
    · have hVM : i ∈ s.pqVIP ++ s.pqMobile := List.mem_append_right _ hM
      rw [List.erase_append_left _ hVM, List.erase_append_right _ hV]
      simp [removeFromPriorityQueues, hV, hM]
    · have hVM : i ∉ s.pqVIP ++ s.pqMobile := by
        simp [List.mem_append, hV, hM]
      have hR : i ∈ s.pqRegular := by
        rcases List.mem_append.mp hmem with h | h
        · exact absurd h hVM
        · exact h
      rw [List.erase_append_right _ hVM]
      simp [removeFromPriorityQueues, hV, hM, hR]

theorem getNextOrder_empty (s : QM) (h : s.queue = []) :
    s.getNextOrder = (none, s) := by
  unfold QM.getNextOrder
  rw [h]

theorem getNextOrder_cons (s : QM) (i : Nat) (rest : List Nat)
    (h : s.queue = i :: rest) :
    s.getNextOrder = ((nextS4 s i rest).orders i, nextS4 s i rest) := by
  unfold QM.getNextOrder
  rw [h]
  rfl

theorem removePQ_peak (s : QM) (i : Nat) :
    (removeFromPriorityQueues s i).peak_queue_length = s.peak_queue_length := by
  unfold removeFromPriorityQueues
  split_ifs <;> rfl

theorem removePQ_total (s : QM) (i : Nat) :
    (removeFromPriorityQueues s i).total_orders = s.total_orders := by
  unfold removeFromPriorityQueues
  split_ifs <;> rfl

theorem removePQ_compToday (s : QM) (i : Nat) :
    (removeFromPriorityQueues s i).completed_today = s.completed_today := by
  unfold removeFromPriorityQueues
  split_ifs <;> rfl

theorem removePQ_avg (s : QM) (i : Nat) :
    (removeFromPriorityQueues s i).average_wait_time = s.average_wait_time := by
  unfold removeFromPriorityQueues
  split_ifs <;> rfl

theorem get_head_of_eq_cons {l : List Nat} {i : Nat} {rest : List Nat}
    (h : l = i :: rest) (h0 : 0 < l.length) : l.get ⟨0, h0⟩ = i := by
  subst h
  rfl

theorem nextS3_concat (s : QM) (hInv : Inv s) (i : Nat) (rest : List Nat)
    (hq : s.queue = i :: rest) :
    (nextS3 s i rest).pqVIP ++ (nextS3 s i rest).pqMobile ++
      (nextS3 s i rest).pqRegular = rest := by
  have hco : s.pqVIP ++ s.pqMobile ++ s.pqRegular = i :: rest :=
    hInv.hq.symm.trans hq
  have hmem1 : i ∈ ({ s with queue := rest } : QM).pqVIP ++
      ({ s with queue := rest } : QM).pqMobile ++
      ({ s with queue := rest } : QM).pqRegular := by
    show i ∈ s.pqVIP ++ s.pqMobile ++ s.pqRegular
    rw [hco]
    exact List.mem_cons_self i rest
  show (removeFromPriorityQueues { s with queue := rest } i).pqVIP ++
      (removeFromPriorityQueues { s with queue := rest } i).pqMobile ++
      (removeFromPriorityQueues { s with queue := rest } i).pqRegular = rest
  rw [removePQ_concat _ _ hmem1]
  show (s.pqVIP ++ s.pqMobile ++ s.pqRegular).erase i = rest
  rw [hco]
  exact List.erase_cons_head i rest

theorem preInv_nextS3 (s : QM) (hInv : Inv s) (i : Nat) (rest : List Nat)
    (hq : s.queue = i :: rest) : PreInv (nextS3 s i rest) := by
  have hc2 := nextS3_concat s hInv i rest hq
  have hto : (nextS3 s i rest).orders =
      updStore s.orders i (setStatus .PREPARING) := by
    show updStore (removeFromPriorityQueues { s with queue := rest } i).orders
      i (setStatus .PREPARING) = _
    rw [removePQ_orders]
  have htp : (nextS3 s i rest).preparing = s.preparing ++ [i] := by
    show (removeFromPriorityQueues { s with queue := rest } i).preparing ++ [i]
      = _
    rw [removePQ_preparing]
  have htc : (nextS3 s i rest).completed = s.completed := by
    show (removeFromPriorityQueues { s with queue := rest } i).completed = _
    rw [removePQ_completed]
  have htn : (nextS3 s i rest).nextId = s.nextId := by
    show (removeFromPriorityQueues { s with queue := rest } i).nextId = _
    rw [removePQ_nextId]
  have hndq' : (i :: rest).Nodup := by
    have := hInv.hnd
    rwa [hq] at this
  have hnotrest : i ∉ rest := (List.nodup_cons.mp hndq').1
  have hiq : i ∈ s.queue := by
    rw [hq]
    exact List.mem_cons_self i rest
  have hisome : (s.orders i).isSome = true := hInv.hsome i (Or.inl hiq)
  have hiP : i ∉ s.preparing := hInv.hQP i hiq
  have hiC : i ∉ s.completed := hInv.hQC i hiq
  have hrest_sub : ∀ j ∈ rest, j ∈ s.queue := by
    intro j hj
    rw [hq]
    exact List.mem_cons_of_mem i hj
  have h0 : 0 < s.queue.length := by
    rw [hq]
    simp
  have hposi : s.posAt i = some 1 := by
    have := hInv.hposQ 0 h0
    rwa [get_head_of_eq_cons hq h0] at this
  have hsubV := removePQ_pqVIP_sublist ({ s with queue := rest } : QM) i
  have hsubM := removePQ_pqMobile_sublist ({ s with queue := rest } : QM) i
  have hsubR := removePQ_pqRegular_sublist ({ s with queue := rest } : QM) i
  refine ⟨?_, ?_, ?_, ?_, ?_, ?_, ?_, ?_, ?_, ?_, ?_, ?_, ?_, ?_, ?_, ?_, ?_,
    ?_, ?_, ?_⟩
  · rw [hc2]
    exact (List.nodup_cons.mp hndq').2
  · rw [htp]
    exact nodup_insert_mid s.preparing [] i (by simpa using hInv.hndP)
      (by simpa using hiP)
  · rw [htc]
    exact hInv.hndC
  · intro j hj
    rw [hc2] at hj
    rw [htp]
    intro hmem
    rcases List.mem_append.mp hmem with hp | hi1
    · exact hInv.hQP j (hrest_sub j hj) hp
    · have hji : j = i := by simpa using hi1
      exact hnotrest (hji ▸ hj)
  · intro j hj
    rw [hc2] at hj
    rw [htc]
    exact hInv.hQC j (hrest_sub j hj)
  · intro j hj
    rw [htp] at hj
    rw [htc]
    rcases List.mem_append.mp hj with hp | hi1
    · exact hInv.hPC j hp
    · have hji : j = i := by simpa using hi1
      exact hji ▸ hiC
  · intro j hj
    rw [htn]
    rw [hc2, htp, htc] at hj
    rcases hj with hj | hj | hj
    · exact hInv.hlt j (Or.inl (hrest_sub j hj))
    · rcases List.mem_append.mp hj with hp | hi1
      · exact hInv.hlt j (Or.inr (Or.inl hp))
      · have hji : j = i := by simpa using hi1
        exact hji ▸ hInv.hlt i (Or.inl hiq)
    · exact hInv.hlt j (Or.inr (Or.inr hj))
  · intro j hj
    rw [hto, updStore_isSome]
    rw [hc2, htp, htc] at hj
    rcases hj with hj | hj | hj
    · exact hInv.hsome j (Or.inl (hrest_sub j hj))
    · rcases List.mem_append.mp hj with hp | hi1
      · exact hInv.hsome j (Or.inr (Or.inl hp))
      · have hji : j = i := by simpa using hi1
        exact hji ▸ hisome
    · exact hInv.hsome j (Or.inr (Or.inr hj))
  · exact updStore_setStatus_id i .PREPARING hto hInv.hid
  · intro j hj
    rw [hc2] at hj
    have hne : j ≠ i := fun he => hnotrest (he ▸ hj)
    rw [updStore_setStatus_statusAt_ne i _ hto j hne]
    exact hInv.hstQ j (hrest_sub j hj)
  · intro j hj
    rw [htp] at hj
    rcases List.mem_append.mp hj with hp | hi1
    · have hne : j ≠ i := fun he => hiP (he ▸ hp)
      rw [updStore_setStatus_statusAt_ne i _ hto j hne]
      exact hInv.hstP j hp
    · have hji : j = i := by simpa using hi1
      subst hji
      exact updStore_setStatus_statusAt_self j _ hto hisome
  · intro j hj
    rw [htc] at hj
    have hne : j ≠ i := fun he => hiC (he ▸ hj)
    rw [updStore_setStatus_statusAt_ne i _ hto j hne]
    exact hInv.hstC j hj
  · intro j hj
    rw [updStore_setStatus_posAt i _ hto j]
    rw [htp] at hj
    rcases List.mem_append.mp hj with hp | hi1
    · exact hInv.hposP j hp
    · have hji : j = i := by simpa using hi1
      exact hji ▸ hposi
  · intro j hj
    rw [updStore_setStatus_posAt i _ hto j]
    rw [htc] at hj
    exact hInv.hposC j hj
  · exact List.Pairwise.sublist hsubV hInv.hsortV
  · exact List.Pairwise.sublist hsubM hInv.hsortM
  · exact List.Pairwise.sublist hsubR hInv.hsortR
  · intro j hj
    rw [updStore_setStatus_prioAt i _ hto j]
    exact hInv.hprV j (hsubV.subset hj)
  · intro j hj
    rw [updStore_setStatus_prioAt i _ hto j]
    exact hInv.hprM j (hsubM.subset hj)
  · intro j hj
    rw [updStore_setStatus_prioAt i _ hto j]
    exact hInv.hprR j (hsubR.subset hj)

theorem inv_getNextOrder (s : QM) (hInv : Inv s) : Inv s.getNextOrder.2 := by
  cases hqe : s.queue with
  | nil =>
      rw [getNextOrder_empty s hqe]
      exact hInv
  | cons i rest =>
      rw [getNextOrder_cons s i rest hqe]
      refine ⟨invCore_rebuild _ (preInv_nextS3 s hInv i rest hqe), ?_⟩
      have hlen : (nextS4 s i rest).queue = rest := by
        rw [nextS4, rebuild_queue]
        exact nextS3_concat s hInv i rest hqe
      have hpk : (nextS4 s i rest).peak_queue_length = s.peak_queue_length := by
        show (removeFromPriorityQueues ({ s with queue := rest } : QM)
          i).peak_queue_length = _
        rw [removePQ_peak]
      show (nextS4 s i rest).queue.length ≤
        (nextS4 s i rest).peak_queue_length
      rw [hlen, hpk]
      have := hInv.hpeak
      rw [hqe] at this
      simp only [List.length_cons] at this
      omega

theorem completeOrder_mem (s : QM) (i : Nat) (w : ℚ) (h : i ∈ s.preparing) :
    s.completeOrder i w = (true, compS2 s i w) := by
  unfold QM.completeOrder
  rw [if_pos h]
  rfl

theorem completeOrder_not_mem (s : QM) (i : Nat) (w : ℚ)
    (h : i ∉ s.preparing) : s.completeOrder i w = (false, s) := by
  unfold QM.completeOrder
  rw [if_neg h]

theorem inv_compS2 (s : QM) (hInv : Inv s) (i : Nat) (w : ℚ)
    (h : i ∈ s.preparing) : Inv (compS2 s i w) := by
  have hto : (compS2 s i w).orders =
    updStore s.orders i (setStatus .COMPLETED) := rfl
  have hiQ : i ∉ s.queue := fun hin => hInv.hQP i hin h
  have hiC : i ∉ s.completed := hInv.hPC i h
  have hisome : (s.orders i).isSome = true :=
    hInv.hsome i (Or.inr (Or.inl h))
  refine ⟨⟨hInv.hq, hInv.hnd, ?_, ?_, ?_, ?_, ?_, ?_, ?_, ?_, ?_, ?_, ?_, ?_,
    ?_, ?_, hInv.hsortV, hInv.hsortM, hInv.hsortR, ?_, ?_, ?_⟩, hInv.hpeak⟩
  · exact hInv.hndP.erase i
  · exact nodup_insert_mid s.completed [] i (by simpa using hInv.hndC)
      (by simpa using hiC)
  · intro j hj hj2
    have hj2' : j ∈ s.preparing.erase i := hj2
    exact hInv.hQP j hj (List.mem_of_mem_erase hj2')
  · intro j hj hj2
    have hj2' : j ∈ s.completed ++ [i] := hj2
    rcases List.mem_append.mp hj2' with hc | hi1
    · exact hInv.hQC j hj hc
    · have hji : j = i := by simpa using hi1
      exact hiQ (hji ▸ hj)
  · intro j hj hj2
    have hj' : j ∈ s.preparing.erase i := hj
    have hj2' : j ∈ s.completed ++ [i] := hj2
    have hjmem := List.mem_of_mem_erase hj'
    have hjne : j ≠ i := ((List.Nodup.mem_erase_iff hInv.hndP).mp hj').1
    rcases List.mem_append.mp hj2' with hc | hi1
    · exact hInv.hPC j hjmem hc
    · exact hjne (by simpa using hi1)
  · intro j hj
    rcases hj with hj | hj | hj
    · exact hInv.hlt j (Or.inl hj)
    · exact hInv.hlt j (Or.inr (Or.inl (List.mem_of_mem_erase hj)))
    · have hj' : j ∈ s.completed ++ [i] := hj
      rcases List.mem_append.mp hj' with hc | hi1
      · exact hInv.hlt j (Or.inr (Or.inr hc))
      · have hji : j = i := by simpa using hi1
        exact hji ▸ hInv.hlt i (Or.inr (Or.inl h))
  · intro j hj
    rw [hto, updStore_isSome]
    rcases hj with hj | hj | hj
    · exact hInv.hsome j (Or.inl hj)
    · exact hInv.hsome j (Or.inr (Or.inl (List.mem_of_mem_erase hj)))
    · have hj' : j ∈ s.completed ++ [i] := hj
      rcases List.mem_append.mp hj' with hc | hi1
      · exact hInv.hsome j (Or.inr (Or.inr hc))
      · have hji : j = i := by simpa using hi1
        exact hji ▸ hisome
  · exact updStore_setStatus_id i .COMPLETED hto hInv.hid
  · intro j hj
    have hj' : j ∈ s.queue := hj
    have hne : j ≠ i := fun he => hiQ (he ▸ hj')
    rw [updStore_setStatus_statusAt_ne i _ hto j hne]
    exact hInv.hstQ j hj'
  · intro j hj
    have hj' : j ∈ s.preparing.erase i := hj
    have hne : j ≠ i := ((List.Nodup.mem_erase_iff hInv.hndP).mp hj').1
    rw [updStore_setStatus_statusAt_ne i _ hto j hne]
    exact hInv.hstP j (List.mem_of_mem_erase hj')
  · intro j hj
    have hj' : j ∈ s.completed ++ [i] := hj
    rcases List.mem_append.mp hj' with hc | hi1
    · have hne : j ≠ i := fun he => hiC (he ▸ hc)
      rw [updStore_setStatus_statusAt_ne i _ hto j hne]
      exact hInv.hstC j hc
    · have hji : j = i := by simpa using hi1
      subst hji
      exact updStore_setStatus_statusAt_self j _ hto hisome
  · intro k hk
    rw [updStore_setStatus_posAt i _ hto]
    exact hInv.hposQ k hk
  · intro j hj
    rw [updStore_setStatus_posAt i _ hto]
    exact hInv.hposP j (List.mem_of_mem_erase hj)
  · intro j hj
    rw [updStore_setStatus_posAt i _ hto]
    have hj' : j ∈ s.completed ++ [i] := hj
    rcases List.mem_append.mp hj' with hc | hi1
    · exact hInv.hposC j hc
    · have hji : j = i := by simpa using hi1
      exact hji ▸ hInv.hposP i h
  · intro j hj
    rw [updStore_setStatus_prioAt i _ hto]
    exact hInv.hprV j hj
  · intro j hj
    rw [updStore_setStatus_prioAt i _ hto]
    exact hInv.hprM j hj
  · intro j hj
    rw [updStore_setStatus_prioAt i _ hto]
    exact hInv.hprR j hj

theorem inv_completeOrder (s : QM) (hInv : Inv s) (i : Nat) (w : ℚ) :
    Inv (s.completeOrder i w).2 := by
  by_cases h : i ∈ s.preparing
  · rw [completeOrder_mem s i w h]
    exact inv_compS2 s hInv i w h
  · rw [completeOrder_not_mem s i w h]
    exact hInv

theorem cancelOrder_queue (s : QM) (i : Nat) (h : i ∈ s.queue) :
    s.cancelOrder i = (true, rebuildMainQueue (cancS2 s i)) := by
  unfold QM.cancelOrder
  rw [if_pos h]
  rfl

theorem cancelOrder_prep (s : QM) (i : Nat) (h1 : i ∉ s.queue)
    (h2 : i ∈ s.preparing) : s.cancelOrder i = (true, cancPrep s i) := by
  unfold QM.cancelOrder
  rw [if_neg h1, if_pos h2]
  rfl

theorem cancelOrder_none (s : QM) (i : Nat) (h1 : i ∉ s.queue)
    (h2 : i ∉ s.preparing) : s.cancelOrder i = (false, s) := by
  unfold QM.cancelOrder
  rw [if_neg h1, if_neg h2]

theorem cancS2_concat (s : QM) (hInv : Inv s) (i : Nat) (h : i ∈ s.queue) :
    (cancS2 s i).pqVIP ++ (cancS2 s i).pqMobile ++ (cancS2 s i).pqRegular =
      (s.pqVIP ++ s.pqMobile ++ s.pqRegular).erase i := by
  have hmem : i ∈ (cancS1 s i).pqVIP ++ (cancS1 s i).pqMobile ++
      (cancS1 s i).pqRegular := by
    show i ∈ s.pqVIP ++ s.pqMobile ++ s.pqRegular
    rw [← hInv.hq]
    exact h
  show (removeFromPriorityQueues (cancS1 s i) i).pqVIP ++
      (removeFromPriorityQueues (cancS1 s i) i).pqMobile ++
      (removeFromPriorityQueues (cancS1 s i) i).pqRegular = _
  rw [removePQ_concat _ _ hmem]
  rfl

theorem preInv_cancS2 (s : QM) (hInv : Inv s) (i : Nat) (h : i ∈ s.queue) :
    PreInv (cancS2 s i) := by
  have hc2 := cancS2_concat s hInv i h
  have hto : (cancS2 s i).orders =
      updStore s.orders i (setStatus .CANCELLED) := by
    show (removeFromPriorityQueues (cancS1 s i) i).orders = _
    rw [removePQ_orders]
    rfl
  have htp : (cancS2 s i).preparing = s.preparing := by
    show (removeFromPriorityQueues (cancS1 s i) i).preparing = _
    rw [removePQ_preparing]
    rfl
  have htc : (cancS2 s i).completed = s.completed := by
    show (removeFromPriorityQueues (cancS1 s i) i).completed = _
    rw [removePQ_completed]
    rfl
  have htn : (cancS2 s i).nextId = s.nextId := by
    show (removeFromPriorityQueues (cancS1 s i) i).nextId = _
    rw [removePQ_nextId]
    rfl
  have hconodup : (s.pqVIP ++ s.pqMobile ++ s.pqRegular).Nodup := by
    rw [← hInv.hq]
    exact hInv.hnd
  have hiP : i ∉ s.preparing := hInv.hQP i h
  have hiC : i ∉ s.completed := hInv.hQC i h
  have herase_mem : ∀ j ∈ (s.pqVIP ++ s.pqMobile ++ s.pqRegular).erase i,
      j ≠ i ∧ j ∈ s.queue := by
    intro j hj
    have := (List.Nodup.mem_erase_iff hconodup).mp hj
    exact ⟨this.1, by rw [hInv.hq]; exact this.2⟩
  have hsubV := removePQ_pqVIP_sublist (cancS1 s i) i
  have hsubM := removePQ_pqMobile_sublist (cancS1 s i) i
  have hsubR := removePQ_pqRegular_sublist (cancS1 s i) i
  refine ⟨?_, ?_, ?_, ?_, ?_, ?_, ?_, ?_, ?_, ?_, ?_, ?_, ?_, ?_, ?_, ?_, ?_,
    ?_, ?_, ?_⟩
  · rw [hc2]
    exact hconodup.erase i
  · rw [htp]
    exact hInv.hndP
  · rw [htc]
    exact hInv.hndC
  · intro j hj
    rw [hc2] at hj
    rw [htp]
    exact hInv.hQP j (herase_mem j hj).2
  · intro j hj
    rw [hc2] at hj
    rw [htc]
    exact hInv.hQC j (herase_mem j hj).2
  · intro j hj
    rw [htp] at hj
    rw [htc]
    exact hInv.hPC j hj
  · intro j hj
    rw [htn]
    rw [hc2, htp, htc] at hj
    rcases hj with hj | hj | hj
    · exact hInv.hlt j (Or.inl (herase_mem j hj).2)
    · exact hInv.hlt j (Or.inr (Or.inl hj))
    · exact hInv.hlt j (Or.inr (Or.inr hj))
  · intro j hj
    rw [hto, updStore_isSome]
    rw [hc2, htp, htc] at hj
    rcases hj with hj | hj | hj
    · exact hInv.hsome j (Or.inl (herase_mem j hj).2)
    · exact hInv.hsome j (Or.inr (Or.inl hj))
    · exact hInv.hsome j (Or.inr (Or.inr hj))
  · exact updStore_setStatus_id i .CANCELLED hto hInv.hid
  · intro j hj
    rw [hc2] at hj
    rw [updStore_setStatus_statusAt_ne i _ hto j (herase_mem j hj).1]
    exact hInv.hstQ j (herase_mem j hj).2
  · intro j hj
    rw [htp] at hj
    have hne : j ≠ i := fun he => hiP (he ▸ hj)
    rw [updStore_setStatus_statusAt_ne i _ hto j hne]
    exact hInv.hstP j hj
  · intro j hj
    rw [htc] at hj
    have hne : j ≠ i := fun he => hiC (he ▸ hj)
    rw [updStore_setStatus_statusAt_ne i _ hto j hne]
    exact hInv.hstC j hj
  · intro j hj
    rw [updStore_setStatus_posAt i _ hto]
    rw [htp] at hj
    exact hInv.hposP j hj
  · intro j hj
    rw [updStore_setStatus_posAt i _ hto]
    rw [htc] at hj
    exact hInv.hposC j hj
  · exact List.Pairwise.sublist hsubV hInv.hsortV
  · exact List.Pairwise.sublist hsubM hInv.hsortM
  · exact List.Pairwise.sublist hsubR hInv.hsortR
  · intro j hj
    rw [updStore_setStatus_prioAt i _ hto]
    exact hInv.hprV j (hsubV.subset hj)
  · intro j hj
    rw [updStore_setStatus_prioAt i _ hto]
    exact hInv.hprM j (hsubM.subset hj)
  · intro j hj
    rw [updStore_setStatus_prioAt i _ hto]
    exact hInv.hprR j (hsubR.subset hj)

theorem inv_cancPrep (s : QM) (hInv : Inv s) (i : Nat) (h1 : i ∉ s.queue)
    (h2 : i ∈ s.preparing) : Inv (cancPrep s i) := by
  have hto : (cancPrep s i).orders =
    updStore s.orders i (setStatus .CANCELLED) := rfl
  have hiC : i ∉ s.completed := hInv.hPC i h2
  refine ⟨⟨hInv.hq, hInv.hnd, ?_, hInv.hndC, ?_, hInv.hQC, ?_, ?_, ?_, ?_, ?_,
    ?_, ?_, ?_, ?_, ?_, hInv.hsortV, hInv.hsortM, hInv.hsortR, ?_, ?_, ?_⟩,
    hInv.hpeak⟩
  · exact hInv.hndP.erase i
  · intro j hj hj2
    have hj2' : j ∈ s.preparing.erase i := hj2
    exact hInv.hQP j hj (List.mem_of_mem_erase hj2')
  · intro j hj
    exact hInv.hPC j (List.mem_of_mem_erase hj)
  · intro j hj
    rcases hj with hj | hj | hj
    · exact hInv.hlt j (Or.inl hj)
    · exact hInv.hlt j (Or.inr (Or.inl (List.mem_of_mem_erase hj)))
    · exact hInv.hlt j (Or.inr (Or.inr hj))
  · intro j hj
    rw [hto, updStore_isSome]
    rcases hj with hj | hj | hj
    · exact hInv.hsome j (Or.inl hj)
    · exact hInv.hsome j (Or.inr (Or.inl (List.mem_of_mem_erase hj)))
    · exact hInv.hsome j (Or.inr (Or.inr hj))
  · exact updStore_setStatus_id i .CANCELLED hto hInv.hid
  · intro j hj
    have hj' : j ∈ s.queue := hj
    have hne : j ≠ i := fun he => h1 (he ▸ hj')
    rw [updStore_setStatus_statusAt_ne i _ hto j hne]
    exact hInv.hstQ j hj'
  · intro j hj
    have hj' : j ∈ s.preparing.erase i := hj
    have hne : j ≠ i := ((List.Nodup.mem_erase_iff hInv.hndP).mp hj').1
    rw [updStore_setStatus_statusAt_ne i _ hto j hne]
    exact hInv.hstP j (List.mem_of_mem_erase hj')
  · intro j hj
    have hj' : j ∈ s.completed := hj
    have hne : j ≠ i := fun he => hiC (he ▸ hj')
    rw [updStore_setStatus_statusAt_ne i _ hto j hne]
    exact hInv.hstC j hj'
  · intro k hk
    rw [updStore_setStatus_posAt i _ hto]
    exact hInv.hposQ k hk
  · intro j hj
    rw [updStore_setStatus_posAt i _ hto]
    exact hInv.hposP j (List.mem_of_mem_erase hj)
  · intro j hj
    rw [updStore_setStatus_posAt i _ hto]
    exact hInv.hposC j hj
  · intro j hj
    rw [updStore_setStatus_prioAt i _ hto]
    exact hInv.hprV j hj
  · intro j hj
    rw [updStore_setStatus_prioAt i _ hto]
    exact hInv.hprM j hj
  · intro j hj
    rw [updStore_setStatus_prioAt i _ hto]
    exact hInv.hprR j hj

theorem inv_cancelOrder (s : QM) (hInv : Inv s) (i : Nat) :
    Inv (s.cancelOrder i).2 := by
  by_cases h : i ∈ s.queue
  · rw [cancelOrder_queue s i h]
    refine ⟨invCore_rebuild _ (preInv_cancS2 s hInv i h), ?_⟩
    have hlen : (rebuildMainQueue (cancS2 s i)).queue =
        (s.pqVIP ++ s.pqMobile ++ s.pqRegular).erase i := by
      rw [rebuild_queue]
      exact cancS2_concat s hInv i h
    have hpk : (rebuildMainQueue (cancS2 s i)).peak_queue_length =
        s.peak_queue_length := by
      show (removeFromPriorityQueues (cancS1 s i) i).peak_queue_length = _
      rw [removePQ_peak]
      rfl
    show (rebuildMainQueue (cancS2 s i)).queue.length ≤
      (rebuildMainQueue (cancS2 s i)).peak_queue_length
    rw [hlen, hpk]
    calc ((s.pqVIP ++ s.pqMobile ++ s.pqRegular).erase i).length
        ≤ (s.pqVIP ++ s.pqMobile ++ s.pqRegular).length :=
          (List.erase_sublist _ _).length_le
      _ = s.queue.length := by rw [← hInv.hq]
      _ ≤ s.peak_queue_length := hInv.hpeak
  · by_cases h2 : i ∈ s.preparing
    · rw [cancelOrder_prep s i h h2]
      exact inv_cancPrep s hInv i h h2
    · rw [cancelOrder_none s i h h2]
      exact hInv

/-- Every mutating operation preserves the invariant. -/
theorem inv_applyOp (s : QM) (hInv : Inv s) (op : Op) : Inv (applyOp s op) := by
  cases op with
  | add n it p => exact inv_addOrder s hInv n it p
  | next => exact inv_getNextOrder s hInv
  | complete i w => exact inv_completeOrder s hInv i w
  | cancel i => exact inv_cancelOrder s hInv i

theorem inv_initQM : Inv initQM := by
  refine ⟨⟨rfl, ?_, ?_, ?_, ?_, ?_, ?_, ?_, ?_, ?_, ?_, ?_, ?_, ?_, ?_, ?_,
    ?_, ?_, ?_, ?_, ?_, ?_⟩, ?_⟩ <;>
    simp [initQM, live, List.Pairwise.nil]

theorem inv_applyOps (s : QM) (hInv : Inv s) (ops : List Op) :
    Inv (applyOps s ops) := by
  induction ops generalizing s with
  | nil => exact hInv
  | cons op rest ih => exact ih _ (inv_applyOp s hInv op)

/-- Every reachable engine state satisfies the invariant. -/
theorem reachable_inv (s : QM) (h : Reachable s) : Inv s := by
  obtain ⟨ops, rfl⟩ := h
  exact inv_applyOps initQM inv_initQM ops

theorem take_eq_take_min {α : Type} (l : List α) (k : Nat) :
    l.take k = l.take (min k l.length) := by
  rcases le_total k l.length with h | h
  · rw [Nat.min_eq_left h]
  · rw [Nat.min_eq_right h, List.take_length, List.take_of_length_le h]

theorem addS2_orders_self (s : QM) (n : String) (it : List String)
    (p : Priority) :
    (addS2 s n it p).orders s.nextId = some (newOrderOf s n it p) := by
  rw [addS2, setPq_orders]
  simp [addS1]

/-- The order returned by `add_order` is the freshly constructed one, with
only its `position_in_queue` possibly rewritten by the rebuild. -/
theorem addOrder_ret_fields (s : QM) (n : String) (it : List String)
    (p : Priority) :
    (s.addOrder n it p).1.id = s.nextId ∧
    (s.addOrder n it p).1.status = .QUEUED ∧
    (s.addOrder n it p).1.customer_name = n ∧
    (s.addOrder n it p).1.items = it ∧
    (s.addOrder n it p).1.priority = p ∧
    (s.addOrder n it p).1.estimated_wait_time = calculateWaitTime it := by
  rw [addOrder_fst]
  have hbase := addS2_orders_self s n it p
  rcases assignPositions_apply ((addS2 s n it p).pqVIP ++
      (addS2 s n it p).pqMobile ++ (addS2 s n it p).pqRegular) 1
      (addS2 s n it p).orders s.nextId with he | ⟨q, he⟩
  · rw [addS3, rebuild_orders, he, hbase]
    exact ⟨rfl, rfl, rfl, rfl, rfl, rfl⟩
  · rw [addS3, rebuild_orders, he, hbase]
    exact ⟨rfl, rfl, rfl, rfl, rfl, rfl⟩

theorem addOrder_total (s : QM) (n : String) (it : List String)
    (p : Priority) :
    (s.addOrder n it p).2.total_orders = s.total_orders + 1 := by
  rw [addOrder_snd_setStats]
  show (addS3 s n it p).total_orders + 1 = s.total_orders + 1
  have : (addS3 s n it p).total_orders = s.total_orders := by
    show (addS2 s n it p).total_orders = s.total_orders
    rw [addS2]
    cases p <;> rfl
  rw [this]

theorem addOrder_mem_queue (s : QM) (n : String) (it : List String)
    (p : Priority) : s.nextId ∈ (s.addOrder n it p).2.queue := by
  rw [addOrder_snd_setStats]
  show s.nextId ∈ (addS3 s n it p).queue
  rw [addS3, rebuild_queue]
  cases p <;> simp [addS2, addS1, QM.setPq, QM.pq]

theorem addOrder_stored (s : QM) (n : String) (it : List String)
    (p : Priority) :
    (s.addOrder n it p).2.orders s.nextId = some (s.addOrder n it p).1 := by
  rw [addOrder_fst, addOrder_snd_setStats]
  show (addS3 s n it p).orders s.nextId =
    some (((addS3 s n it p).orders s.nextId).getD (newOrderOf s n it p))
  have hsome : ((addS3 s n it p).orders s.nextId).isSome = true := by
    rw [addS3, rebuild_isSome, addS2_orders_self]
    rfl
  obtain ⟨o', ho'⟩ := Option.isSome_iff_exists.mp hsome
  rw [ho']
  rfl

theorem addOrder_pq_append (s : QM) (n : String) (it : List String)
    (p : Priority) :
    (s.addOrder n it p).2.pq p = s.pq p ++ [s.nextId] := by
  cases p <;> rfl

/-- C7: `get_queue_status` reports estimated wait 5 on an empty pending
queue, and otherwise the floor of the average of the estimated waits of the
first `min(5, length)` pending orders, bounded below by 5. -/
theorem C7_estimated_wait (s : QM) :
    (s.queue = [] → s.getQueueStatus.estimated_wait_time = 5) ∧
    (s.queue ≠ [] →
      s.getQueueStatus.estimated_wait_time =
        max 5 (((s.queue.take (min 5 s.queue.length)).map s.estAt).sum /
          min 5 s.queue.length)) := by
  constructor
  · intro h
    show s.calculateEstimatedWaitTime = 5
    rw [QM.calculateEstimatedWaitTime, if_pos h]
  · intro h
    show s.calculateEstimatedWaitTime = _
    rw [QM.calculateEstimatedWaitTime, if_neg h, take_eq_take_min]

/-- Witness for C7 at the empty engine and a one-order engine. -/
theorem C7_estimated_wait_witness :
    initQM.getQueueStatus.estimated_wait_time = 5 ∧
    wAdd1.getQueueStatus.estimated_wait_time =
      max 5 (((wAdd1.queue.take (min 5 wAdd1.queue.length)).map
        wAdd1.estAt).sum / min 5 wAdd1.queue.length) :=
  ⟨(C7_estimated_wait initQM).1 rfl, (C7_estimated_wait wAdd1).2 (by decide)⟩

/-- C10: the engine itself performs no validation: `add_order` succeeds on
any customer name and item list (empty included), producing a QUEUED order
in the queue with estimated wait 5 for an empty item list; the empty-input
rejection lives in the transport layer's `create_order` check. -/
theorem C10_no_engine_validation (s : QM) (n : String) (it : List String)
    (p : Priority) :
    (s.addOrder n it p).1.status = .QUEUED ∧
    (s.addOrder n it p).2.total_orders = s.total_orders + 1 ∧
    (s.addOrder n it p).1.id ∈ (s.addOrder n it p).2.queue ∧
    (it = [] → (s.addOrder n it p).1.estimated_wait_time = 5) ∧
    createOrderRejects none it = true ∧
    createOrderRejects (some "") it = true ∧
    createOrderRejects (some n) [] = true := by
  obtain ⟨hid, hst, -, -, -, hest⟩ := addOrder_ret_fields s n it p
  refine ⟨hst, addOrder_total s n it p, ?_, ?_, rfl, rfl, ?_⟩
  · rw [hid]
    exact addOrder_mem_queue s n it p
  · intro h
    rw [hest, h]
    rfl
  · simp [createOrderRejects]

/-- Witness for C10: the empty name and empty item list. -/
theorem C10_no_engine_validation_witness :
    (initQM.addOrder "" [] .REGULAR).1.status = .QUEUED ∧
    (initQM.addOrder "" [] .REGULAR).1.estimated_wait_time = 5 :=
  ⟨(C10_no_engine_validation initQM "" [] .REGULAR).1,
   (C10_no_engine_validation initQM "" [] .REGULAR).2.2.2.1 rfl⟩

/-- C8: on any reachable state, `add_order` with a non-empty name and
non-empty item list constructs an order with the fresh id (distinct from
every live id), status QUEUED, the given fields, estimated wait
`5 + 2 * item count`, appends it to the tail of its priority class's deque,
bumps `total_orders`, recomputes all pending positions, and returns the
order carrying its assigned 1-based position. -/
theorem C8_addOrder_spec (s : QM) (h : Reachable s) (n : String)
    (it : List String) (p : Priority) (_hn : n ≠ "") (_hit : it ≠ []) :
    (s.addOrder n it p).1.id = s.nextId ∧
    (∀ j, live s j → j ≠ (s.addOrder n it p).1.id) ∧
    (s.addOrder n it p).1.status = .QUEUED ∧
    (s.addOrder n it p).1.customer_name = n ∧
    (s.addOrder n it p).1.items = it ∧
    (s.addOrder n it p).1.priority = p ∧
    (s.addOrder n it p).1.estimated_wait_time = 5 + 2 * it.length ∧
    (s.addOrder n it p).2.pq p = s.pq p ++ [(s.addOrder n it p).1.id] ∧
    (s.addOrder n it p).2.total_orders = s.total_orders + 1 ∧
    (∀ (k : Nat) (hk : k < (s.addOrder n it p).2.queue.length),
      (s.addOrder n it p).2.posAt ((s.addOrder n it p).2.queue.get ⟨k, hk⟩) =
        some (k + 1)) ∧
    (∃ (k : Nat) (hk : k < (s.addOrder n it p).2.queue.length),
      (s.addOrder n it p).2.queue.get ⟨k, hk⟩ = (s.addOrder n it p).1.id ∧
      (s.addOrder n it p).1.position_in_queue = some (k + 1)) := by
  obtain ⟨hid, hst, hnm, hits, hpr, hest⟩ := addOrder_ret_fields s n it p
  have hInv := reachable_inv s h
  have hInv' := inv_addOrder s hInv n it p
  refine ⟨hid, ?_, hst, hnm, hits, hpr, ?_, ?_, addOrder_total s n it p, ?_,
    ?_⟩
  · intro j hl
    rw [hid]
    exact Nat.ne_of_lt (hInv.hlt j hl)
  · rw [hest]
    simp [calculateWaitTime, Nat.mul_comm]
  · rw [hid]
    exact addOrder_pq_append s n it p
  · exact hInv'.hposQ
  · have hm : (s.addOrder n it p).1.id ∈ (s.addOrder n it p).2.queue := by
      rw [hid]
      exact addOrder_mem_queue s n it p
    obtain ⟨⟨k, hk⟩, hget⟩ := List.mem_iff_get.mp hm
    refine ⟨k, hk, hget, ?_⟩
    have hpos := hInv'.hposQ k hk
    rw [hget] at hpos
    have hstored : (s.addOrder n it p).2.posAt (s.addOrder n it p).1.id =
        (s.addOrder n it p).1.position_in_queue := by
      rw [posAt_eq, hid, addOrder_stored]
      rfl
    rw [← hstored]
    exact hpos

/-- Witness for C8: the first order of a fresh engine. -/
theorem C8_addOrder_spec_witness :
    (initQM.addOrder "A" ["Latte"] .REGULAR).1.id = 0 ∧
    (initQM.addOrder "A" ["Latte"] .REGULAR).1.estimated_wait_time = 7 := by
  have h := C8_addOrder_spec initQM ⟨[], rfl⟩ "A" ["Latte"] .REGULAR
    (by decide) (by decide)
  exact ⟨h.1, by rw [h.2.2.2.2.2.2.1]; rfl⟩

/-- C2: on every reachable state the main queue equals the concatenation of
the VIP, MOBILE_ORDER and REGULAR deques in that class order; each deque
holds only orders of its own class, and each is strictly increasing in
order id — ids are issued sequentially at submission, so this is exactly
FIFO by submission order within each class. -/
theorem C2_unified_concat (s : QM) (h : Reachable s) :
    s.queue = s.pqVIP ++ s.pqMobile ++ s.pqRegular ∧
    (∀ i ∈ s.pqVIP, s.prioAt i = .VIP) ∧
    (∀ i ∈ s.pqMobile, s.prioAt i = .MOBILE_ORDER) ∧
    (∀ i ∈ s.pqRegular, s.prioAt i = .REGULAR) ∧
    s.pqVIP.Pairwise (· < ·) ∧
    s.pqMobile.Pairwise (· < ·) ∧
    s.pqRegular.Pairwise (· < ·) := by
  have hInv := reachable_inv s h
  exact ⟨hInv.hq, hInv.hprV, hInv.hprM, hInv.hprR, hInv.hsortV, hInv.hsortM,
    hInv.hsortR⟩

/-- Witness for C2 at a one-order state. -/
theorem C2_unified_concat_witness :
    wAdd1.queue = wAdd1.pqVIP ++ wAdd1.pqMobile ++ wAdd1.pqRegular :=
  (C2_unified_concat wAdd1 ⟨[.add "A" ["Latte"] .REGULAR], rfl⟩).1

/-- C1 (amended): on every reachable state, each pending order's
`position_in_queue` equals its 1-based index in the unified pending
sequence; but non-pending orders are NOT reset to null — the rebuild only
touches orders still pending, so a PREPARING or COMPLETED order retains the
position it held when it was dequeued, namely 1. -/
theorem C1_positions (s : QM) (h : Reachable s) :
    (∀ (k : Nat) (hk : k < s.queue.length),
      s.posAt (s.queue.get ⟨k, hk⟩) = some (k + 1)) ∧
    (∀ i ∈ s.preparing, s.statusAt i = .PREPARING ∧ s.posAt i = some 1) ∧
    (∀ i ∈ s.completed, s.statusAt i = .COMPLETED ∧ s.posAt i = some 1) := by
  have hInv := reachable_inv s h
  exact ⟨hInv.hposQ,
    fun i hi => ⟨hInv.hstP i hi, hInv.hposP i hi⟩,
    fun i hi => ⟨hInv.hstC i hi, hInv.hposC i hi⟩⟩

/-- Counterexample to C1 as stated: after submitting one order and
dequeuing it for preparation, the order is PREPARING yet its
`position_in_queue` is still 1, not null. -/
theorem C1_positions_counterexample :
    Reachable wPrep1 ∧ wPrep1.statusAt 0 = .PREPARING ∧
      wPrep1.posAt 0 = some 1 ∧ wPrep1.posAt 0 ≠ none :=
  ⟨⟨[.add "A" ["Latte"] .REGULAR, .next], rfl⟩, by decide, by decide,
    by decide⟩

/-- Witness for C1 (amended) at a one-order state: the pending order holds
position 1. -/
theorem C1_positions_witness : wAdd1.posAt 0 = some 1 := by
  have h := C1_positions wAdd1 ⟨[.add "A" ["Latte"] .REGULAR], rfl⟩
  have h0 : (0 : Nat) < wAdd1.queue.length := by decide
  have hpos := h.1 0 h0
  rwa [show wAdd1.queue.get ⟨0, h0⟩ = 0 from rfl] at hpos

theorem nextS3_orders (s : QM) (i : Nat) (rest : List Nat) :
    (nextS3 s i rest).orders =
      updStore s.orders i (setStatus .PREPARING) := by
  show updStore (removeFromPriorityQueues { s with queue := rest } i).orders
    i (setStatus .PREPARING) = _
  rw [removePQ_orders]

theorem nextS3_preparing (s : QM) (i : Nat) (rest : List Nat) :
    (nextS3 s i rest).preparing = s.preparing ++ [i] := by
  show (removeFromPriorityQueues { s with queue := rest } i).preparing ++ [i]
    = _
  rw [removePQ_preparing]

/-- C3: `get_next_order` returns `None` exactly on an empty pending queue
(leaving the state unchanged); otherwise it returns the order that held
position 1, now marked PREPARING, removes it from the main queue and its
priority deque, files it in the preparing map, and recomputes the positions
of the remaining pending orders. -/
theorem C3_getNextOrder_spec (s : QM) (h : Reachable s) :
    (s.getNextOrder.1 = none ↔ s.queue = []) ∧
    (s.queue = [] → s.getNextOrder.2 = s) ∧
    (∀ i rest, s.queue = i :: rest →
      s.posAt i = some 1 ∧
      s.getNextOrder.1 = (s.orders i).map (setStatus .PREPARING) ∧
      s.getNextOrder.2.queue = rest ∧
      s.getNextOrder.2.statusAt i = .PREPARING ∧
      i ∈ s.getNextOrder.2.preparing ∧
      i ∉ s.getNextOrder.2.pqVIP ∧
      i ∉ s.getNextOrder.2.pqMobile ∧
      i ∉ s.getNextOrder.2.pqRegular ∧
      (∀ (k : Nat) (hk : k < s.getNextOrder.2.queue.length),
        s.getNextOrder.2.posAt (s.getNextOrder.2.queue.get ⟨k, hk⟩) =
          some (k + 1))) := by
  have hInv := reachable_inv s h
  refine ⟨⟨?_, ?_⟩, ?_, ?_⟩
  · intro hnone
    by_contra hne
    obtain ⟨i, rest, hqe⟩ := List.exists_cons_of_ne_nil hne
    rw [getNextOrder_cons s i rest hqe] at hnone
    have hiq : i ∈ s.queue := by
      rw [hqe]
      exact List.mem_cons_self i rest
    have hisome : ((nextS4 s i rest).orders i).isSome = true := by
      rw [nextS4, rebuild_isSome, nextS3_orders, updStore_isSome]
      exact hInv.hsome i (Or.inl hiq)
    rw [show ((nextS4 s i rest).orders i, nextS4 s i rest).1 =
      (nextS4 s i rest).orders i from rfl] at hnone
    rw [hnone] at hisome
    exact Bool.false_ne_true hisome
  · intro he
    rw [getNextOrder_empty s he]
  · intro he
    rw [getNextOrder_empty s he]
  · intro i rest hqe
    have hInv' : Inv (nextS4 s i rest) := by
      have := inv_getNextOrder s hInv
      rwa [getNextOrder_cons s i rest hqe] at this
    have hc2 := nextS3_concat s hInv i rest hqe
    have hiq : i ∈ s.queue := by
      rw [hqe]
      exact List.mem_cons_self i rest
    have hndq' : (i :: rest).Nodup := by
      have := hInv.hnd
      rwa [hqe] at this
    have hnotrest : i ∉ rest := (List.nodup_cons.mp hndq').1
    have hqueue' : (nextS4 s i rest).queue = rest := by
      rw [nextS4, rebuild_queue]
      exact hc2
    have h0 : 0 < s.queue.length := by
      rw [hqe]
      simp
    have hposi : s.posAt i = some 1 := by
      have := hInv.hposQ 0 h0
      rwa [get_head_of_eq_cons hqe h0] at this
    have hinotin : i ∉ (nextS3 s i rest).pqVIP ++ (nextS3 s i rest).pqMobile
        ++ (nextS3 s i rest).pqRegular := by
      rw [hc2]
      exact hnotrest
    rw [getNextOrder_cons s i rest hqe]
    refine ⟨hposi, ?_, hqueue', ?_, ?_, ?_, ?_, ?_, hInv'.hposQ⟩
    · show (nextS4 s i rest).orders i = _
      rw [nextS4, rebuild_orders, assignPositions_not_mem _ _ _ _ hinotin,
        nextS3_orders, updStore_self]
    · show (nextS4 s i rest).statusAt i = _
      rw [nextS4, rebuild_statusAt]
      exact updStore_setStatus_statusAt_self i _ (nextS3_orders s i rest)
        (hInv.hsome i (Or.inl hiq))
    · show i ∈ (nextS4 s i rest).preparing
      show i ∈ (nextS3 s i rest).preparing
      rw [nextS3_preparing]
      exact List.mem_append_right _ (List.mem_singleton.mpr rfl)
    · intro hmem
      exact hinotin (List.mem_append_left _ (List.mem_append_left _ hmem))
    · intro hmem
      exact hinotin (List.mem_append_left _ (List.mem_append_right _ hmem))
    · intro hmem
      exact hinotin (List.mem_append_right _ hmem)

/-- Witness for C3: dequeuing the single order of a one-order engine. -/
theorem C3_getNextOrder_spec_witness :
    wAdd1.getNextOrder.2.queue = [] ∧
    wAdd1.getNextOrder.2.statusAt 0 = .PREPARING := by
  have h := C3_getNextOrder_spec wAdd1 ⟨[.add "A" ["Latte"] .REGULAR], rfl⟩
  have h3 := h.2.2 0 [] (by decide)
  exact ⟨h3.2.2.1, h3.2.2.2.1⟩

/-- C4: `complete_order` is a no-op returning false when the id is not a
key of the preparing map; otherwise it removes the order from the map,
marks it COMPLETED, appends it to the history, bumps `completed_today`,
returns true, and afterwards the order shows up in no query result except
the bounded recent-completions window of the analytics (where it does
appear). -/
theorem C4_completeOrder_spec (s : QM) (h : Reachable s) (i : Nat) (w : ℚ) :
    (i ∉ s.preparing → s.completeOrder i w = (false, s)) ∧
    (i ∈ s.preparing →
      (s.completeOrder i w).1 = true ∧
      i ∉ (s.completeOrder i w).2.preparing ∧
      (s.completeOrder i w).2.statusAt i = .COMPLETED ∧
      (s.completeOrder i w).2.completed = s.completed ++ [i] ∧
      (s.completeOrder i w).2.completed_today = s.completed_today + 1 ∧
      (∀ o ∈ ((s.completeOrder i w).2.getQueueStatus).queue_orders,
        o.id ≠ i) ∧
      (∀ o ∈ ((s.completeOrder i w).2.getQueueStatus).preparing_orders,
        o.id ≠ i) ∧
      (∀ nm : String, ∀ o ∈ (s.completeOrder i w).2.getCustomerStatus nm,
        o.id ≠ i) ∧
      (∃ o ∈ ((s.completeOrder i w).2.getAnalytics).recent_completions,
        o.id = i)) := by
  have hInv := reachable_inv s h
  refine ⟨completeOrder_not_mem s i w, ?_⟩
  intro hm
  have hInv' : Inv (compS2 s i w) := inv_compS2 s hInv i w hm
  have hiQ : i ∉ s.queue := fun hin => hInv.hQP i hin hm
  have hqueue_ne : ∀ j o, (compS2 s i w).orders j = some o → j ∈ s.queue →
      o.id ≠ i := by
    intro j o hoj hjq he
    have hji : j = i := by rw [← hInv'.hid j o hoj]; exact he
    exact hiQ (hji ▸ hjq)
  rw [completeOrder_mem s i w hm]
  refine ⟨rfl, ?_, ?_, rfl, rfl, ?_, ?_, ?_, ?_⟩
  · show i ∉ s.preparing.erase i
    intro hmem
    exact ((List.Nodup.mem_erase_iff hInv.hndP).mp hmem).1 rfl
  · exact updStore_setStatus_statusAt_self i _ rfl
      (hInv.hsome i (Or.inr (Or.inl hm)))
  · intro o ho
    obtain ⟨j, hj, hoj⟩ := List.mem_filterMap.mp ho
    exact hqueue_ne j o hoj ((List.take_sublist _ _).subset hj)
  · intro o ho
    obtain ⟨j, hj, hoj⟩ := List.mem_filterMap.mp ho
    have hj' : j ∈ s.preparing.erase i := hj
    intro he
    have hji : j = i := by rw [← hInv'.hid j o hoj]; exact he
    exact ((List.Nodup.mem_erase_iff hInv.hndP).mp hj').1 hji
  · intro nm o ho
    rcases List.mem_append.mp ho with hq | hp
    · obtain ⟨j, hj, hoj⟩ := List.mem_filterMap.mp (List.mem_filter.mp hq).1
      exact hqueue_ne j o hoj hj
    · obtain ⟨j, hj, hoj⟩ := List.mem_filterMap.mp (List.mem_filter.mp hp).1
      have hj' : j ∈ s.preparing.erase i := hj
      intro he
      have hji : j = i := by rw [← hInv'.hid j o hoj]; exact he
      exact ((List.Nodup.mem_erase_iff hInv.hndP).mp hj').1 hji
  · have hisome : ((compS2 s i w).orders i).isSome = true := by
      show (updStore s.orders i (setStatus .COMPLETED) i).isSome = true
      rw [updStore_isSome]
      exact hInv.hsome i (Or.inr (Or.inl hm))
    obtain ⟨o, ho⟩ := Option.isSome_iff_exists.mp hisome
    have hdz : (s.completed ++ [i]).length - 10 - s.completed.length = 0 := by
      simp only [List.length_append, List.length_singleton]
      omega
    have hmemdrop : i ∈ (s.completed ++ [i]).drop
        ((s.completed ++ [i]).length - 10) := by
      rw [List.drop_append_eq_append_drop, hdz]
      exact List.mem_append_right _ (List.mem_singleton.mpr rfl)
    exact ⟨o, List.mem_filterMap.mpr ⟨i, hmemdrop, ho⟩, hInv'.hid i o ho⟩

/-- Witness for C4: completing the sole PREPARING order. -/
theorem C4_completeOrder_spec_witness :
    (wPrep1.completeOrder 0 10).1 = true ∧
    (wPrep1.completeOrder 0 10).2.statusAt 0 = .COMPLETED := by
  have h := C4_completeOrder_spec wPrep1
    ⟨[.add "A" ["Latte"] .REGULAR, .next], rfl⟩ 0 10
  have h2 := h.2 (by decide)
  exact ⟨h2.1, h2.2.2.1⟩

theorem cancS2_orders (s : QM) (i : Nat) :
    (cancS2 s i).orders = updStore s.orders i (setStatus .CANCELLED) := by
  show (removeFromPriorityQueues (cancS1 s i) i).orders = _
  rw [removePQ_orders]
  rfl

theorem cancS2_completed (s : QM) (i : Nat) :
    (cancS2 s i).completed = s.completed := by
  show (removeFromPriorityQueues (cancS1 s i) i).completed = _
  rw [removePQ_completed]
  rfl

/-- C5: `cancel_order` returns false exactly when the id is neither pending
nor preparing (leaving the state unchanged); cancelling a pending order
removes it from the main queue and its priority deque, marks it CANCELLED
and recomputes the remaining positions; cancelling a preparing order
removes it from the preparing map and marks it CANCELLED; neither case
touches the completed history. -/
theorem C5_cancelOrder_spec (s : QM) (h : Reachable s) (i : Nat) :
    ((s.cancelOrder i).1 = false ↔ (i ∉ s.queue ∧ i ∉ s.preparing)) ∧
    (i ∉ s.queue → i ∉ s.preparing → (s.cancelOrder i).2 = s) ∧
    (i ∈ s.queue →
      i ∉ (s.cancelOrder i).2.queue ∧
      i ∉ (s.cancelOrder i).2.pqVIP ∧
      i ∉ (s.cancelOrder i).2.pqMobile ∧
      i ∉ (s.cancelOrder i).2.pqRegular ∧
      (s.cancelOrder i).2.statusAt i = .CANCELLED ∧
      (s.cancelOrder i).2.completed = s.completed ∧
      (∀ (k : Nat) (hk : k < (s.cancelOrder i).2.queue.length),
        (s.cancelOrder i).2.posAt ((s.cancelOrder i).2.queue.get ⟨k, hk⟩) =
          some (k + 1))) ∧
    (i ∉ s.queue → i ∈ s.preparing →
      i ∉ (s.cancelOrder i).2.preparing ∧
      (s.cancelOrder i).2.statusAt i = .CANCELLED ∧
      (s.cancelOrder i).2.completed = s.completed) := by
  have hInv := reachable_inv s h
  have hconodup : (s.pqVIP ++ s.pqMobile ++ s.pqRegular).Nodup := by
    rw [← hInv.hq]
    exact hInv.hnd
  refine ⟨⟨?_, ?_⟩, ?_, ?_, ?_⟩
  · intro hfalse
    by_cases hq : i ∈ s.queue
    · rw [cancelOrder_queue s i hq] at hfalse
      exact absurd hfalse (by simp)
    · by_cases hp : i ∈ s.preparing
      · rw [cancelOrder_prep s i hq hp] at hfalse
        exact absurd hfalse (by simp)
      · exact ⟨hq, hp⟩
  · intro hnp
    rw [cancelOrder_none s i hnp.1 hnp.2]
  · intro h1 h2
    rw [cancelOrder_none s i h1 h2]
  · intro hq
    have hInv' : Inv (rebuildMainQueue (cancS2 s i)) := by
      have := inv_cancelOrder s hInv i
      rwa [cancelOrder_queue s i hq] at this
    have hc2 := cancS2_concat s hInv i hq
    rw [cancelOrder_queue s i hq]
    have hlen : (rebuildMainQueue (cancS2 s i)).queue =
        (s.pqVIP ++ s.pqMobile ++ s.pqRegular).erase i := by
      rw [rebuild_queue]
      exact hc2
    have hinotin : i ∉ (cancS2 s i).pqVIP ++ (cancS2 s i).pqMobile ++
        (cancS2 s i).pqRegular := by
      rw [hc2]
      intro hmem
      exact ((List.Nodup.mem_erase_iff hconodup).mp hmem).1 rfl
    refine ⟨?_, ?_, ?_, ?_, ?_, ?_, hInv'.hposQ⟩
    · rw [hlen]
      intro hmem
      exact ((List.Nodup.mem_erase_iff hconodup).mp hmem).1 rfl
    · intro hmem
      exact hinotin (List.mem_append_left _ (List.mem_append_left _ hmem))
    · intro hmem
      exact hinotin (List.mem_append_left _ (List.mem_append_right _ hmem))
    · intro hmem
      exact hinotin (List.mem_append_right _ hmem)
    · rw [rebuild_statusAt]
      exact updStore_setStatus_statusAt_self i _ (cancS2_orders s i)
        (hInv.hsome i (Or.inl hq))
    · show (cancS2 s i).completed = s.completed
      exact cancS2_completed s i
  · intro h1 h2
    rw [cancelOrder_prep s i h1 h2]
    refine ⟨?_, ?_, rfl⟩
    · show i ∉ s.preparing.erase i
      intro hmem
      exact ((List.Nodup.mem_erase_iff hInv.hndP).mp hmem).1 rfl
    · exact updStore_setStatus_statusAt_self i _ rfl
        (hInv.hsome i (Or.inr (Or.inl h2)))

/-- Witness for C5: cancelling the sole pending order. -/
theorem C5_cancelOrder_spec_witness :
    0 ∉ (wAdd1.cancelOrder 0).2.queue ∧
    (wAdd1.cancelOrder 0).2.statusAt 0 = .CANCELLED := by
  have h := C5_cancelOrder_spec wAdd1 ⟨[.add "A" ["Latte"] .REGULAR], rfl⟩ 0
  have hp := h.2.2.1 (by decide)
  exact ⟨hp.1, hp.2.2.2.2.1⟩

theorem le_observedMax (s : QM) (ops : List Op) :
    s.queue.length ≤ observedMax s ops := by
  cases ops with
  | nil => exact Nat.le_refl _
  | cons op rest => exact Nat.le_max_left _ _

theorem applyOp_add_peak (s : QM) (n : String) (it : List String)
    (p : Priority) :
    (applyOp s (.add n it p)).peak_queue_length =
      max s.peak_queue_length (applyOp s (.add n it p)).queue.length := by
  show (s.addOrder n it p).2.peak_queue_length =
    max s.peak_queue_length (s.addOrder n it p).2.queue.length
  rw [addOrder_snd_setStats]
  have hpk : (addS3 s n it p).peak_queue_length = s.peak_queue_length := by
    cases p <;> rfl
  show (if (addS3 s n it p).queue.length > (addS3 s n it p).peak_queue_length
      then (addS3 s n it p).queue.length
      else (addS3 s n it p).peak_queue_length) =
    max s.peak_queue_length (addS3 s n it p).queue.length
  rw [hpk]
  by_cases hc : (addS3 s n it p).queue.length > s.peak_queue_length
  · rw [if_pos hc, Nat.max_eq_right (Nat.le_of_lt hc)]
  · rw [if_neg hc, Nat.max_eq_left (Nat.le_of_not_lt hc)]

theorem applyOp_add_len (s : QM) (hInv : Inv s) (n : String)
    (it : List String) (p : Priority) :
    (applyOp s (.add n it p)).queue.length = s.queue.length + 1 := by
  show (s.addOrder n it p).2.queue.length = _
  rw [addOrder_snd_setStats]
  show (addS3 s n it p).queue.length = _
  rw [addS3, rebuild_queue]
  have hlen : ((addS2 s n it p).pqVIP ++ (addS2 s n it p).pqMobile ++
      (addS2 s n it p).pqRegular).length =
      (s.pqVIP ++ s.pqMobile ++ s.pqRegular).length + 1 := by
    cases p <;> simp [addS2, addS1, QM.setPq, QM.pq] <;> omega
  rw [hlen, ← hInv.hq]

theorem applyOp_next_peak (s : QM) :
    (applyOp s .next).peak_queue_length = s.peak_queue_length := by
  show s.getNextOrder.2.peak_queue_length = _
  cases hqe : s.queue with
  | nil => rw [getNextOrder_empty s hqe]
  | cons i rest =>
      rw [getNextOrder_cons s i rest hqe]
      show (removeFromPriorityQueues ({ s with queue := rest } : QM)
        i).peak_queue_length = _
      rw [removePQ_peak]

theorem applyOp_next_len_le (s : QM) (hInv : Inv s) :
    (applyOp s .next).queue.length ≤ s.queue.length := by
  show s.getNextOrder.2.queue.length ≤ _
  cases hqe : s.queue with
  | nil =>
      rw [getNextOrder_empty s hqe]
      simp [hqe]
  | cons i rest =>
      rw [getNextOrder_cons s i rest hqe]
      have hlen : (nextS4 s i rest).queue = rest := by
        rw [nextS4, rebuild_queue]
        exact nextS3_concat s hInv i rest hqe
      show (nextS4 s i rest).queue.length ≤ _
      rw [hlen]
      simp

theorem applyOp_complete_peak (s : QM) (i : Nat) (w : ℚ) :
    (applyOp s (.complete i w)).peak_queue_length = s.peak_queue_length := by
  show (s.completeOrder i w).2.peak_queue_length = _
  by_cases hm : i ∈ s.preparing
  · rw [completeOrder_mem s i w hm]
    rfl
  · rw [completeOrder_not_mem s i w hm]

theorem applyOp_complete_len (s : QM) (i : Nat) (w : ℚ) :
    (applyOp s (.complete i w)).queue = s.queue := by
  show (s.completeOrder i w).2.queue = _
  by_cases hm : i ∈ s.preparing
  · rw [completeOrder_mem s i w hm]
    rfl
  · rw [completeOrder_not_mem s i w hm]

theorem applyOp_cancel_peak (s : QM) (i : Nat) :
    (applyOp s (.cancel i)).peak_queue_length = s.peak_queue_length := by
  show (s.cancelOrder i).2.peak_queue_length = _
  by_cases hq : i ∈ s.queue
  · rw [cancelOrder_queue s i hq]
    show (removeFromPriorityQueues (cancS1 s i) i).peak_queue_length = _
    rw [removePQ_peak]
    rfl
  · by_cases hp : i ∈ s.preparing
    · rw [cancelOrder_prep s i hq hp]
      rfl
    · rw [cancelOrder_none s i hq hp]

theorem applyOp_cancel_len_le (s : QM) (hInv : Inv s) (i : Nat) :
    (applyOp s (.cancel i)).queue.length ≤ s.queue.length := by
  show (s.cancelOrder i).2.queue.length ≤ _
  by_cases hq : i ∈ s.queue
  · rw [cancelOrder_queue s i hq]
    have hlen : (rebuildMainQueue (cancS2 s i)).queue =
        (s.pqVIP ++ s.pqMobile ++ s.pqRegular).erase i := by
      rw [rebuild_queue]
      exact cancS2_concat s hInv i hq
    show (rebuildMainQueue (cancS2 s i)).queue.length ≤ _
    rw [hlen]
    calc ((s.pqVIP ++ s.pqMobile ++ s.pqRegular).erase i).length
        ≤ (s.pqVIP ++ s.pqMobile ++ s.pqRegular).length :=
          (List.erase_sublist _ _).length_le
      _ = s.queue.length := by rw [← hInv.hq]
  · by_cases hp : i ∈ s.preparing
    · rw [cancelOrder_prep s i hq hp]
      exact Nat.le_refl _
    · rw [cancelOrder_none s i hq hp]

theorem applyOp_peak_cases (s : QM) (hInv : Inv s) (op : Op) :
    ((applyOp s op).peak_queue_length =
        max s.peak_queue_length (applyOp s op).queue.length ∧
      s.queue.length ≤ (applyOp s op).queue.length) ∨
    ((applyOp s op).peak_queue_length = s.peak_queue_length ∧
      (applyOp s op).queue.length ≤ s.queue.length) := by
  cases op with
  | add n it p =>
      refine Or.inl ⟨applyOp_add_peak s n it p, ?_⟩
      rw [applyOp_add_len s hInv n it p]
      omega
  | next => exact Or.inr ⟨applyOp_next_peak s, applyOp_next_len_le s hInv⟩
  | complete i w =>
      exact Or.inr ⟨applyOp_complete_peak s i w,
        Nat.le_of_eq (by rw [applyOp_complete_len s i w])⟩
  | cancel i =>
      exact Or.inr ⟨applyOp_cancel_peak s i, applyOp_cancel_len_le s hInv i⟩

theorem peak_applyOps (ops : List Op) : ∀ s : QM, Inv s →
    (applyOps s ops).peak_queue_length =
      max s.peak_queue_length (observedMax s ops) := by
  induction ops with
  | nil =>
      intro s h
      show s.peak_queue_length = max s.peak_queue_length s.queue.length
      rw [Nat.max_eq_left h.hpeak]
  | cons op rest ih =>
      intro s h
      show (applyOps (applyOp s op) rest).peak_queue_length =
        max s.peak_queue_length
          (max s.queue.length (observedMax (applyOp s op) rest))
      rw [ih (applyOp s op) (inv_applyOp s h op)]
      have hX := le_observedMax (applyOp s op) rest
      rcases applyOp_peak_cases s h op with ⟨hpk, hlen⟩ | ⟨hpk, hlen⟩
      · rw [hpk]
        have h2 : s.queue.length ≤ observedMax (applyOp s op) rest :=
          Nat.le_trans hlen hX
        rw [Nat.max_assoc, Nat.max_eq_right hX, Nat.max_eq_right h2]
      · rw [hpk]
        have h2 : s.queue.length ≤ s.peak_queue_length := h.hpeak
        rw [← Nat.max_assoc, Nat.max_eq_left h2]

/-- C9: over any run from a fresh engine, the peak-length statistic equals
the maximum unified-queue length observed at any point of the run, bounds
the current pending length, and never decreases when one more operation is
appended to the run. -/
theorem C9_peak_spec (ops : List Op) (op : Op) :
    (applyOps initQM ops).peak_queue_length = observedMax initQM ops ∧
    (applyOps initQM ops).queue.length ≤
      (applyOps initQM ops).peak_queue_length ∧
    (applyOps initQM ops).peak_queue_length ≤
      (applyOps initQM (ops ++ [op])).peak_queue_length := by
  have hInv := inv_applyOps initQM inv_initQM ops
  refine ⟨?_, hInv.hpeak, ?_⟩
  · rw [peak_applyOps ops initQM inv_initQM]
    exact Nat.max_eq_right (Nat.zero_le _)
  · have happ : applyOps initQM (ops ++ [op]) =
        applyOp (applyOps initQM ops) op := by
      rw [applyOps, List.foldl_append]
      rfl
    rw [happ]
    rcases applyOp_peak_cases _ hInv op with ⟨hpk, _⟩ | ⟨hpk, _⟩
    · rw [hpk]
      exact Nat.le_max_left _ _
    · rw [hpk]

theorem foldAvgExact_go (ws : List ℚ) : ∀ (n : Nat) (sum : ℚ), 0 < n →
    (ws.foldl foldAvgExactStep (n, sum / (n : ℚ))).2 =
      (sum + ws.sum) / ((n : ℚ) + (ws.length : ℚ)) := by
  induction ws with
  | nil =>
      intro n sum hn
      show sum / (n : ℚ) = (sum + 0) / ((n : ℚ) + 0)
      rw [add_zero, add_zero]
  | cons w ws ih =>
      intro n sum hn
      have hn0 : (n : ℚ) ≠ 0 := Nat.cast_ne_zero.mpr (by omega)
      have hstep : foldAvgExactStep (n, sum / (n : ℚ)) w =
          (n + 1, (sum + w) / ((n + 1 : ℕ) : ℚ)) := by
        show (n + 1, updateAverageExact (n + 1) (sum / (n : ℚ)) w) = _
        have : updateAverageExact (n + 1) (sum / (n : ℚ)) w =
            (sum + w) / ((n + 1 : ℕ) : ℚ) := by
          rw [updateAverageExact, if_neg (by omega)]
          push_cast
          field_simp
        rw [this]
      show (ws.foldl foldAvgExactStep
        (foldAvgExactStep (n, sum / (n : ℚ)) w)).2 = _
      rw [hstep, ih (n + 1) (sum + w) (by omega)]
      push_cast
      rw [List.sum_cons, List.length_cons]
      push_cast
      ring_nf

theorem foldAvgExact_eq_mean (ws : List ℚ) (h : ws ≠ []) :
    foldAvgExact ws = ws.sum / (ws.length : ℚ) := by
  cases ws with
  | nil => exact absurd rfl h
  | cons w ws =>
      show (ws.foldl foldAvgExactStep (foldAvgExactStep (0, 0) w)).2 = _
      have h1 : foldAvgExactStep (0, 0) w = (1, w / ((1 : ℕ) : ℚ)) := by
        show ((0 : ℕ) + 1, updateAverageExact (0 + 1) 0 w) = _
        have : updateAverageExact (0 + 1) 0 w = w / ((1 : ℕ) : ℚ) := by
          rw [updateAverageExact, if_pos rfl]
          norm_num
        rw [this]
      rw [h1, foldAvgExact_go ws 1 w (by omega)]
      rw [List.sum_cons, List.length_cons]
      push_cast
      ring_nf

/-- C6 (amended): the engine folds each completion into the rolling average
by the cumulative-mean step of `_update_average_wait_time` (the first
completion stores the sample as-is, later ones are rounded to one decimal
place); without that per-step rounding the recurrence yields exactly the
arithmetic mean of the samples (hence order-independent), but the rounded
stored value can differ from the true mean by more than floating rounding
(see the counterexample). -/
theorem C6_average_wait (ws : List ℚ) (h : ws ≠ []) :
    foldAvgExact ws = ws.sum / (ws.length : ℚ) ∧
    (∀ (s : QM) (i : Nat) (w : ℚ), i ∈ s.preparing →
      (s.completeOrder i w).2.completed_today = s.completed_today + 1 ∧
      (s.completeOrder i w).2.average_wait_time =
        updateAverageWaitTime (s.completed_today + 1) s.average_wait_time w) ∧
    (∀ (avg sample : ℚ), updateAverageWaitTime 1 avg sample = sample) := by
  refine ⟨foldAvgExact_eq_mean ws h, ?_, ?_⟩
  · intro s i w hm
    rw [completeOrder_mem s i w hm]
    exact ⟨rfl, rfl⟩
  · intro avg sample
    rw [updateAverageWaitTime, if_pos rfl]

/-- Counterexample to C6 as stated: completing three orders with actual
waits 0, 1, 1 stores average 7/10 (the engine run and the fold agree),
while the arithmetic mean is 2/3; the gap 1/30 far exceeds floating
rounding. -/
theorem C6_average_wait_counterexample :
    foldAvg [0, 1, 1] = 7 / 10 ∧
    ([0, 1, 1] : List ℚ).sum / ((([0, 1, 1] : List ℚ).length : ℕ) : ℚ) =
      2 / 3 ∧
    (7 / 10 : ℚ) - 2 / 3 = 1 / 30 ∧ ((1 / 30 : ℚ) > 1 / 100) := by
  refine ⟨?_, by norm_num, by norm_num, by norm_num⟩
  show (foldAvgStep (foldAvgStep (foldAvgStep (0, 0) 0) 1) 1).2 = 7 / 10
  have h1 : foldAvgStep (0, 0) 0 = (1, 0) := by
    show ((0 : ℕ) + 1, updateAverageWaitTime (0 + 1) 0 0) = _
    rw [updateAverageWaitTime, if_pos rfl]
  have h2 : foldAvgStep (1, 0) 1 = (2, 1 / 2) := by
    show ((1 : ℕ) + 1, updateAverageWaitTime (1 + 1) 0 1) = _
    rw [updateAverageWaitTime, if_neg (by omega), pyRound1, pyRoundInt]
    norm_num
  have h3 : foldAvgStep (2, 1 / 2) 1 = (3, 7 / 10) := by
    show ((2 : ℕ) + 1, updateAverageWaitTime (2 + 1) (1 / 2) 1) = _
    rw [updateAverageWaitTime, if_neg (by omega), pyRound1, pyRoundInt]
    norm_num
  rw [h1, h2, h3]

/-- Witness for C6 (amended) at the two-sample list 2, 4, and at a
concrete completion. -/
theorem C6_average_wait_witness :
    (foldAvgExact [2, 4] =
      ([2, 4] : List ℚ).sum / ((([2, 4] : List ℚ).length : ℕ) : ℚ)) ∧
    (wPrep1.completeOrder 0 5).2.completed_today =
      wPrep1.completed_today + 1 :=
  ⟨(C6_average_wait [2, 4] (by decide)).1,
   ((C6_average_wait [2, 4] (by decide)).2.1 wPrep1 0 5 (by decide)).1⟩

end CoffeeQueue
